import Mathlib

/-!
Verification of the jsonc scanner and formatter.

The JavaScript source is embedded shallowly: a JS string is a list of UTF-16
code units (`JStr`), `charCodeAt` out of bounds is `none` (modelling `NaN`,
which fails every comparison in the source), and each `while` loop of the
source becomes a fuel-indexed recursive function.  Every top-level entry point
passes fuel that is proven (or at concrete inputs, computed) to be sufficient.
-/

namespace Jsonc

/-- A JavaScript string: a list of UTF-16 code units. -/
abbrev JStr := List Nat

/-- `text.charCodeAt(pos)`: `none` models the `NaN` returned out of bounds
(`NaN` makes every comparison in the source false). -/
def chAt (t : JStr) (p : Nat) : Option Nat := t[p]?

/-- `text.substring(s, e)`: clamps both ends to the string and swaps them when
`s > e`, as JavaScript does. -/
def substringJS (t : JStr) (s e : Nat) : JStr := (t.take (max s e)).drop (min s e)

/-! The character codes used by scanner.ts (its `CharacterCodes` enum). -/

namespace CC
def lineFeed : Nat := 0x0A
def carriageReturn : Nat := 0x0D
def space : Nat := 0x20
def tab : Nat := 0x09
def _0 : Nat := 0x30
def _9 : Nat := 0x39
def A : Nat := 0x41
def E : Nat := 0x45
def F : Nat := 0x46
def a : Nat := 0x61
def b : Nat := 0x62
def e : Nat := 0x65
def f : Nat := 0x66
def n : Nat := 0x6E
def r : Nat := 0x72
def t : Nat := 0x74
def u : Nat := 0x75
def asterisk : Nat := 0x2A
def backslash : Nat := 0x5C
def closeBrace : Nat := 0x7D
def closeBracket : Nat := 0x5D
def colon : Nat := 0x3A
def comma : Nat := 0x2C
def dot : Nat := 0x2E
def doubleQuote : Nat := 0x22
def minus : Nat := 0x2D
def openBrace : Nat := 0x7B
def openBracket : Nat := 0x5B
def plus : Nat := 0x2B
def slash : Nat := 0x2F
end CC

def isWhiteSpace (ch : Nat) : Bool := ch == CC.space || ch == CC.tab

def isLineBreak (ch : Nat) : Bool := ch == CC.lineFeed || ch == CC.carriageReturn

def isDigit (ch : Nat) : Bool := CC._0 ≤ ch && ch ≤ CC._9

/-- The source's predicates applied to a `charCodeAt` result (false on `NaN`). -/
def isWhiteSpaceO : Option Nat → Bool
  | some c => isWhiteSpace c
  | none => false

def isLineBreakO : Option Nat → Bool
  | some c => isLineBreak c
  | none => false

def isDigitO : Option Nat → Bool
  | some c => isDigit c
  | none => false

/-- `SyntaxKind` from main.ts. -/
inductive SyntaxKind where
  | openBraceToken | closeBraceToken | openBracketToken | closeBracketToken
  | commaToken | colonToken | nullKeyword | trueKeyword | falseKeyword
  | stringLiteral | numericLiteral | lineCommentTrivia | blockCommentTrivia
  | lineBreakTrivia | trivia | unknown | eof
deriving DecidableEq, Repr

/-- `ScanError` from main.ts. -/
inductive ScanError where
  | none | unexpectedEndOfComment | unexpectedEndOfString | unexpectedEndOfNumber
  | invalidUnicode | invalidEscapeCharacter | invalidCharacter
deriving DecidableEq, Repr

/-- The scanner's mutable variables (createScanner in scanner.ts). -/
structure ScannerState where
  pos : Nat
  value : JStr
  tokenOffset : Nat
  token : SyntaxKind
  lineNumber : Nat
  lineStartOffset : Nat
  tokenLineStartOffset : Nat
  prevTokenLineStartOffset : Nat
  scanError : ScanError
deriving DecidableEq, Repr

/-- The scanner's initial state. -/
def initScanner : ScannerState :=
  { pos := 0, value := [], tokenOffset := 0, token := .unknown,
    lineNumber := 0, lineStartOffset := 0, tokenLineStartOffset := 0,
    prevTokenLineStartOffset := 0, scanError := .none }

/-- `getTokenLength()` of the scanner: `pos - tokenOffset`. -/
def tokenLength (s : ScannerState) : Nat := s.pos - s.tokenOffset

/-- The whitespace-trivia loop of `scanNext` (scanner.ts lines 197–205):
`do { pos++; value += fromCharCode(code); code = charCodeAt(pos); } while (isWhiteSpace(code))`.
Returns the new `pos` and the accumulated `value`. -/
def wsLoop (t : JStr) : Nat → Nat → Nat → JStr → Nat × JStr
  | 0, pos, code, acc => (pos + 1, acc ++ [code])
  | fuel+1, pos, code, acc =>
    let pos' := pos + 1
    let acc' := acc ++ [code]
    match chAt t pos' with
    | some c => if isWhiteSpace c then wsLoop t fuel pos' c acc' else (pos', acc')
    | none => (pos', acc')

/-- A run of digits: `while (pos < len && isDigit(charCodeAt(pos))) pos++`. -/
def digitRun (t : JStr) : Nat → Nat → Nat
  | 0, pos => pos
  | fuel+1, pos => if isDigitO (chAt t pos) then digitRun t fuel (pos + 1) else pos

/-- The exponent part of `scanNumber` (scanner.ts lines 82–98), starting from
`pos` which is also the current `end`.  Returns (value, pos, scanError). -/
def expPart (t : JStr) (start pos : Nat) : JStr × Nat × ScanError :=
  if chAt t pos = some CC.E ∨ chAt t pos = some CC.e then
    let pos1 := pos + 1
    let pos2 :=
      if (decide (pos1 < t.length) && (chAt t pos1 == some CC.plus)) ||
          (chAt t pos1 == some CC.minus) then pos1 + 1 else pos1
    if isDigitO (chAt t pos2) then
      let pos3 := digitRun t (t.length + 2) (pos2 + 1)
      (substringJS t start pos3, pos3, .none)
    else
      (substringJS t start pos, pos2, .unexpectedEndOfNumber)
  else (substringJS t start pos, pos, .none)

/-- `scanNumber` (scanner.ts lines 60–99); `start` points at the first digit.
Returns (value, pos, scanError). -/
def scanNumber (t : JStr) (start : Nat) : JStr × Nat × ScanError :=
  let pos1 : Nat :=
    if chAt t start = some CC._0 then start + 1
    else digitRun t (t.length + 2) (start + 1)
  if chAt t pos1 = some CC.dot then
    if isDigitO (chAt t (pos1 + 1)) then
      expPart t start (digitRun t (t.length + 2) (pos1 + 2))
    else
      (substringJS t start (pos1 + 1), pos1 + 1, .unexpectedEndOfNumber)
  else expPart t start pos1

/-- One hexadecimal digit's value. -/
def hexVal (ch : Nat) : Option Nat :=
  if CC._0 ≤ ch ∧ ch ≤ CC._9 then some (ch - CC._0)
  else if CC.A ≤ ch ∧ ch ≤ CC.F then some (ch - CC.A + 10)
  else if CC.a ≤ ch ∧ ch ≤ CC.f then some (ch - CC.a + 10)
  else none

/-- The loop of `scanHexDigits(count, exact := true)`: `remaining` counts down
from `count`; a non-hex character (or the end of text) stops the loop, and
having read fewer than `count` digits yields `none` (the source's `-1`). -/
def hexDigitsGo (t : JStr) : Nat → Nat → Nat → Option Nat × Nat
  | 0, pos, value => (some value, pos)
  | remaining+1, pos, value =>
    match chAt t pos with
    | some ch =>
      match hexVal ch with
      | some d => hexDigitsGo t remaining (pos + 1) (value * 16 + d)
      | none => (none, pos)
    | none => (none, pos)

/-- `scanHexDigits(4, true)` (scanner.ts lines 26–50). -/
def scanHexDigits4 (t : JStr) (pos : Nat) : Option Nat × Nat := hexDigitsGo t 4 pos 0

/-- The loop of `scanString` (scanner.ts lines 101–178).  `start`, `pos`, `acc`
(the source's `result`) and `err` (the source's `scanError`) mirror the
mutable locals; returns (result, pos, scanError). -/
def scanStringGo (t : JStr) : Nat → Nat → Nat → JStr → ScanError → JStr × Nat × ScanError
  | 0, _, pos, acc, err => (acc, pos, err)
  | fuel+1, start, pos, acc, err =>
    if t.length ≤ pos then
      (acc ++ substringJS t start pos, pos, .unexpectedEndOfString)
    else
      match chAt t pos with
      | none => (acc, pos, err)
      | some ch =>
        if ch = CC.doubleQuote then
          (acc ++ substringJS t start pos, pos + 1, err)
        else if ch = CC.backslash then
          let acc1 := acc ++ substringJS t start pos
          let pos1 := pos + 1
          if t.length ≤ pos1 then (acc1, pos1, .unexpectedEndOfString)
          else
            match chAt t pos1 with
            | none => (acc1, pos1, .unexpectedEndOfString)
            | some ch2 =>
              let pos2 := pos1 + 1
              if ch2 = CC.doubleQuote then scanStringGo t fuel pos2 pos2 (acc1 ++ [CC.doubleQuote]) err
              else if ch2 = CC.backslash then scanStringGo t fuel pos2 pos2 (acc1 ++ [CC.backslash]) err
              else if ch2 = CC.slash then scanStringGo t fuel pos2 pos2 (acc1 ++ [CC.slash]) err
              else if ch2 = CC.b then scanStringGo t fuel pos2 pos2 (acc1 ++ [0x08]) err
              else if ch2 = CC.f then scanStringGo t fuel pos2 pos2 (acc1 ++ [0x0C]) err
              else if ch2 = CC.n then scanStringGo t fuel pos2 pos2 (acc1 ++ [CC.lineFeed]) err
              else if ch2 = CC.r then scanStringGo t fuel pos2 pos2 (acc1 ++ [CC.carriageReturn]) err
              else if ch2 = CC.t then scanStringGo t fuel pos2 pos2 (acc1 ++ [CC.tab]) err
              else if ch2 = CC.u then
                match scanHexDigits4 t pos2 with
                | (some v, pos3) => scanStringGo t fuel pos3 pos3 (acc1 ++ [v]) err
                | (none, pos3) => scanStringGo t fuel pos3 pos3 acc1 .invalidUnicode
              else scanStringGo t fuel pos2 pos2 acc1 .invalidEscapeCharacter
        else if ch ≤ 0x1F then
          if isLineBreak ch then
            (acc ++ substringJS t start pos, pos, .unexpectedEndOfString)
          else scanStringGo t fuel start (pos + 1) acc .invalidCharacter
        else scanStringGo t fuel start (pos + 1) acc err

/-- The single-line comment loop (scanner.ts lines 254–260). -/
def lineCommentEnd (t : JStr) : Nat → Nat → Nat
  | 0, pos => pos
  | fuel+1, pos =>
    if pos < t.length then
      if isLineBreakO (chAt t pos) then pos else lineCommentEnd t fuel (pos + 1)
    else pos

/-- The multi-line comment loop (scanner.ts lines 269–290); `safeLength` is
`len - 1`.  Returns (pos, lineNumber, tokenLineStartOffset, commentClosed). -/
def blockCommentLoop (t : JStr) : Nat → Nat → Nat → Nat → Nat × Nat × Nat × Bool
  | 0, pos, ln, tls => (pos, ln, tls, false)
  | fuel+1, pos, ln, tls =>
    if pos < t.length - 1 then
      match chAt t pos with
      | none => (pos, ln, tls, false)
      | some ch =>
        if ch = CC.asterisk ∧ chAt t (pos + 1) = some CC.slash then (pos + 2, ln, tls, true)
        else
          let pos1 := pos + 1
          if isLineBreak ch then
            let pos2 := if ch = CC.carriageReturn ∧ chAt t pos1 = some CC.lineFeed then pos1 + 1 else pos1
            blockCommentLoop t fuel pos2 (ln + 1) pos2
          else blockCommentLoop t fuel pos1 ln tls
    else (pos, ln, tls, false)

/-- `isUnknownContentCharacter` (scanner.ts lines 351–367). -/
def isUnknownContentCharacter (code : Nat) : Bool :=
  if isWhiteSpace code || isLineBreak code then false
  else if code = CC.closeBrace ∨ code = CC.closeBracket ∨ code = CC.openBrace ∨
      code = CC.openBracket ∨ code = CC.doubleQuote ∨ code = CC.colon ∨
      code = CC.comma ∨ code = CC.slash then false
  else true

/-- The literal/unknown word loop (scanner.ts lines 330–333). -/
def unknownRun (t : JStr) : Nat → Nat → Nat
  | 0, pos => pos
  | fuel+1, pos =>
    match chAt t pos with
    | some c => if isUnknownContentCharacter c then unknownRun t fuel (pos + 1) else pos
    | none => pos

def strTrue : JStr := [0x74, 0x72, 0x75, 0x65]
def strFalse : JStr := [0x66, 0x61, 0x6C, 0x73, 0x65]
def strNull : JStr := [0x6E, 0x75, 0x6C, 0x6C]

/-- `scanNext` (scanner.ts lines 180–349): scan one token. -/
def scanNext (t : JStr) (s : ScannerState) : ScannerState :=
  let len := t.length
  let s0 : ScannerState :=
    { s with value := [], scanError := ScanError.none,
             tokenOffset := s.pos, lineStartOffset := s.lineNumber,
             prevTokenLineStartOffset := s.tokenLineStartOffset }
  if len ≤ s.pos then
    { s0 with tokenOffset := len, token := .eof }
  else
    match chAt t s.pos with
    | none => { s0 with tokenOffset := len, token := .eof }
    | some code =>
      if isWhiteSpace code then
        let r := wsLoop t (len + 2) s.pos code []
        { s0 with pos := r.1, value := r.2, token := .trivia }
      else if isLineBreak code then
        let pos1 := s.pos + 1
        let r : Nat × JStr :=
          if code = CC.carriageReturn ∧ chAt t pos1 = some CC.lineFeed
          then (pos1 + 1, [code, CC.lineFeed]) else (pos1, [code])
        { s0 with pos := r.1, value := r.2, token := .lineBreakTrivia,
                  lineNumber := s.lineNumber + 1, tokenLineStartOffset := r.1 }
      else if code = CC.openBrace then { s0 with pos := s.pos + 1, token := .openBraceToken }
      else if code = CC.closeBrace then { s0 with pos := s.pos + 1, token := .closeBraceToken }
      else if code = CC.openBracket then { s0 with pos := s.pos + 1, token := .openBracketToken }
      else if code = CC.closeBracket then { s0 with pos := s.pos + 1, token := .closeBracketToken }
      else if code = CC.colon then { s0 with pos := s.pos + 1, token := .colonToken }
      else if code = CC.comma then { s0 with pos := s.pos + 1, token := .commaToken }
      else if code = CC.doubleQuote then
        let r := scanStringGo t (len + 2) (s.pos + 1) (s.pos + 1) [] .none
        { s0 with pos := r.2.1, value := r.1, scanError := r.2.2, token := .stringLiteral }
      else if code = CC.slash then
        let start := s.pos - 1
        if chAt t (s.pos + 1) = some CC.slash then
          let pos' := lineCommentEnd t (len + 2) (s.pos + 2)
          { s0 with pos := pos', value := substringJS t start pos', token := .lineCommentTrivia }
        else if chAt t (s.pos + 1) = some CC.asterisk then
          let r := blockCommentLoop t (len + 2) (s.pos + 2) s.lineNumber s.tokenLineStartOffset
          let posF := if r.2.2.2 then r.1 else r.1 + 1
          let errF := if r.2.2.2 then ScanError.none else ScanError.unexpectedEndOfComment
          { s0 with pos := posF, lineNumber := r.2.1, tokenLineStartOffset := r.2.2.1,
                    value := substringJS t start posF, scanError := errF,
                    token := .blockCommentTrivia }
        else { s0 with pos := s.pos + 1, value := [code], token := .unknown }
      else if code = CC.minus then
        let pos1 := s.pos + 1
        if pos1 = len ∨ isDigitO (chAt t pos1) = false then
          { s0 with pos := pos1, value := [code], token := .unknown }
        else
          let r := scanNumber t pos1
          { s0 with pos := r.2.1, value := code :: r.1, scanError := r.2.2,
                    token := .numericLiteral }
      else if isDigit code then
        let r := scanNumber t s.pos
        { s0 with pos := r.2.1, value := r.1, scanError := r.2.2, token := .numericLiteral }
      else
        let pos' := unknownRun t (len + 2) s.pos
        if s.pos ≠ pos' then
          let v := substringJS t s.pos pos'
          if v = strTrue then { s0 with pos := pos', value := v, token := .trueKeyword }
          else if v = strFalse then { s0 with pos := pos', value := v, token := .falseKeyword }
          else if v = strNull then { s0 with pos := pos', value := v, token := .nullKeyword }
          else { s0 with pos := pos', value := v, token := .unknown }
        else { s0 with pos := s.pos + 1, value := [code], token := .unknown }

/-- Iterated scanning: the state after `n` calls to `scan()`. -/
def scanIter (t : JStr) : Nat → ScannerState → ScannerState
  | 0, s => s
  | n+1, s => scanIter t n (scanNext t s)

/-- One scanned token, as observed through the scanner accessors. -/
structure TokenInfo where
  offset : Nat
  length : Nat
  kind : SyntaxKind
  err : ScanError
deriving DecidableEq, Repr

def tokenInfo (s : ScannerState) : TokenInfo :=
  { offset := s.tokenOffset, length := tokenLength s, kind := s.token, err := s.scanError }

/-- The token stream from repeated `scan()` calls, up to and including the
first `EOF` token (fuel-bounded). -/
def tokenStream (t : JStr) : Nat → ScannerState → List TokenInfo
  | 0, _ => []
  | fuel+1, s =>
    let s' := scanNext t s
    tokenInfo s' :: (if s'.token = .eof then [] else tokenStream t fuel s')

/-- All tokens of a text, from a fresh scanner (`ignoreTrivia = false`). -/
def tokens (t : JStr) : List TokenInfo := tokenStream t (t.length + 1) initScanner

/-! # The formatter (format.ts, both revisions) -/

/-- `FormattingOptions`; `none` models an absent (`undefined`) field. -/
structure FormattingOptions where
  tabSize : Option Nat := none
  insertSpaces : Option Bool := none
  eol : Option JStr := none
  insertFinalNewline : Option Bool := none
  keepLines : Option Bool := none

/-- `options.tabSize || 4` (note `0` is falsy in JavaScript). -/
def effTabSize (o : FormattingOptions) : Nat :=
  match o.tabSize with
  | some k => if k = 0 then 4 else k
  | none => 4

/-- A text range (offset, length). -/
structure Range where
  offset : Nat
  length : Nat

/-- A text edit; `length` is an `Int` because the source computes it as
`endOffset - startOffset` on JavaScript numbers. -/
structure Edit where
  offset : Nat
  length : Int
  content : JStr
deriving DecidableEq, Repr

/-- `repeat(s, count)` from format.ts: a `for` loop that runs
`max(0, count)` times. -/
def repeatJ (s : JStr) (count : Int) : JStr := List.flatten (List.replicate count.toNat s)

/-- `isEOL` from format.ts: `'\r\n'.indexOf(text.charAt(offset)) !== -1`.
Out of bounds, `charAt` gives `''`, which `indexOf` finds at 0, hence `true`. -/
def isEOL (t : JStr) (offset : Nat) : Bool :=
  match chAt t offset with
  | some c => (c == CC.carriageReturn) || (c == CC.lineFeed)
  | none => true

/-- The scan of `getEOL`'s loop for the first line break of the text. -/
def detectEOL (t : JStr) : Nat → Nat → Option JStr
  | 0, _ => none
  | fuel+1, i =>
    match chAt t i with
    | none => none
    | some ch =>
      if ch = CC.carriageReturn then
        if chAt t (i + 1) = some CC.lineFeed then some [CC.carriageReturn, CC.lineFeed]
        else some [CC.carriageReturn]
      else if ch = CC.lineFeed then some [CC.lineFeed]
      else detectEOL t fuel (i + 1)

/-- `getEOL` from format.ts (empty `options.eol` is falsy). -/
def getEOL (o : FormattingOptions) (t : JStr) : JStr :=
  match detectEOL t (t.length + 1) 0 with
  | some found => found
  | none =>
    match o.eol with
    | some e1 => if e1 = [] then [CC.lineFeed] else e1
    | none => [CC.lineFeed]

/-- The character-counting loop of `computeIndentLevel`. -/
def indentCharsGo (tabSize : Nat) : List Nat → Nat → Nat
  | [], acc => acc
  | c :: rest, acc =>
    if c = CC.space then indentCharsGo tabSize rest (acc + 1)
    else if c = CC.tab then indentCharsGo tabSize rest (acc + tabSize)
    else acc

/-- `computeIndentLevel` from format.ts. -/
def computeIndentLevel (content : JStr) (o : FormattingOptions) : Nat :=
  indentCharsGo (effTabSize o) content 0 / effTabSize o

/-- `while (formatTextStart > 0 && !isEOL(documentText, formatTextStart - 1)) formatTextStart--`. -/
def expandStart (doc : JStr) : Nat → Nat
  | 0 => 0
  | p+1 => if isEOL doc p then p + 1 else expandStart doc p

/-- `while (endOffset < documentText.length && !isEOL(documentText, endOffset)) endOffset++`. -/
def expandEnd (doc : JStr) : Nat → Nat → Nat
  | 0, p => p
  | fuel+1, p =>
    if p < doc.length then (if isEOL doc p then p else expandEnd doc fuel (p + 1)) else p

/-- The values `format` computes before its loop, shared by both revisions. -/
structure FmtCtx where
  documentText : JStr
  formatText : JStr
  formatTextStart : Nat
  rangeStart : Nat
  rangeEnd : Nat
  hasRange : Bool
  eol : JStr
  indentValue : JStr
  initialIndentLevel : Nat
  keepLines : Bool
  insertFinalNewline : Bool

/-- The preamble of `format` (identical in both revisions). -/
def mkFmtCtx (documentText : JStr) (range : Option Range) (o : FormattingOptions) : FmtCtx :=
  let indentValue : JStr :=
    if o.insertSpaces.getD false then repeatJ [CC.space] (effTabSize o) else [CC.tab]
  let eol := getEOL o documentText
  let kl := o.keepLines.getD false
  let ifn := o.insertFinalNewline.getD false
  match range with
  | some r =>
    let rangeStart := r.offset
    let rangeEnd := rangeStart + r.length
    let formatTextStart := expandStart documentText rangeStart
    let endOffset := expandEnd documentText (documentText.length + 1) rangeEnd
    let formatText := substringJS documentText formatTextStart endOffset
    { documentText := documentText, formatText := formatText,
      formatTextStart := formatTextStart, rangeStart := rangeStart, rangeEnd := rangeEnd,
      hasRange := true, eol := eol, indentValue := indentValue,
      initialIndentLevel := computeIndentLevel formatText o,
      keepLines := kl, insertFinalNewline := ifn }
  | none =>
    { documentText := documentText, formatText := documentText, formatTextStart := 0,
      rangeStart := 0, rangeEnd := documentText.length, hasRange := false,
      eol := eol, indentValue := indentValue, initialIndentLevel := 0,
      keepLines := kl, insertFinalNewline := ifn }

/-- `addEdit` (identical in both revisions). -/
def addEdit (ctx : FmtCtx) (hasError : Bool) (edits : List Edit) (text : JStr)
    (startOffset endOffset : Nat) : List Edit :=
  if ¬hasError ∧ (¬ctx.hasRange ∨ (startOffset < ctx.rangeEnd ∧ ctx.rangeStart < endOffset)) ∧
      substringJS ctx.documentText startOffset endOffset ≠ text then
    edits ++ [{ offset := startOffset, length := (endOffset : Int) - (startOffset : Int),
                content := text }]
  else edits

/-- `newLinesAndIndent` of the new revision (format.ts lines 839–845):
the `numberLineBreaks > 1` test. -/
def newLinesAndIndentNew (ctx : FmtCtx) (numberLineBreaks : Nat) (indentLevel : Int) : JStr :=
  if numberLineBreaks > 1 then
    repeatJ ctx.eol numberLineBreaks ++
      repeatJ ctx.indentValue ((ctx.initialIndentLevel : Int) + indentLevel)
  else ctx.eol ++ repeatJ ctx.indentValue ((ctx.initialIndentLevel : Int) + indentLevel)

/-- `newLinesAndIndent` of the old revision (format.ts lines 543–549):
the `numberLineBreaks > 0` test. -/
def newLinesAndIndentOld (ctx : FmtCtx) (numberLineBreaks : Nat) (indentLevel : Int) : JStr :=
  if numberLineBreaks > 0 then
    repeatJ ctx.eol numberLineBreaks ++
      repeatJ ctx.indentValue ((ctx.initialIndentLevel : Int) + indentLevel)
  else ctx.eol ++ repeatJ ctx.indentValue ((ctx.initialIndentLevel : Int) + indentLevel)

/-- The trivia-skipping loop of the new revision's `scanNext` wrapper
(format.ts lines 851–858). -/
def fmtScanGoNew (t : JStr) (kl : Bool) : Nat → ScannerState → Nat → ScannerState × Nat
  | 0, s, nlb => (s, nlb)
  | fuel+1, s, nlb =>
    if s.token = .trivia ∨ s.token = .lineBreakTrivia then
      let nlb' := if s.token = .lineBreakTrivia then (if kl then nlb + 1 else 1) else nlb
      fmtScanGoNew t kl fuel (scanNext t s) nlb'
    else (s, nlb)

/-- The new revision's `scanNext` wrapper (format.ts lines 847–861):
returns the scanner after the next non-trivia token, the `numberLineBreaks`
count, and the new `hasError` flag. -/
def fmtScanNew (t : JStr) (kl : Bool) (s : ScannerState) : ScannerState × Nat × Bool :=
  let r := fmtScanGoNew t kl (t.length + 2) (scanNext t s) 0
  (r.1, r.2, decide (r.1.token = SyntaxKind.unknown ∨ r.1.scanError ≠ ScanError.none))

/-- The trivia-skipping loop of the old revision's wrapper
(format.ts lines 555–561), also tracking the `lineBreak` flag. -/
def fmtScanGoOld (t : JStr) (kl : Bool) : Nat → ScannerState → Bool → Nat → ScannerState × Bool × Nat
  | 0, s, lb, nlb => (s, lb, nlb)
  | fuel+1, s, lb, nlb =>
    if s.token = .trivia ∨ s.token = .lineBreakTrivia then
      let lb' := lb || (s.token == .lineBreakTrivia)
      let nlb' := if s.token = .lineBreakTrivia ∧ kl then nlb + 1 else nlb
      fmtScanGoOld t kl fuel (scanNext t s) lb' nlb'
    else (s, lb, nlb)

/-- The old revision's `scanNext` wrapper (format.ts lines 551–564):
returns scanner, `lineBreak`, `numberLineBreaks`, `hasError`. -/
def fmtScanOld (t : JStr) (kl : Bool) (s : ScannerState) : ScannerState × Bool × Nat × Bool :=
  let r := fmtScanGoOld t kl (t.length + 2) (scanNext t s) false 0
  (r.1, r.2.1, r.2.2, decide (r.1.token = SyntaxKind.unknown ∨ r.1.scanError ≠ ScanError.none))

/-- The mutable locals of one iteration of the comment-attachment loop
(shared shape for both revisions; the old revision additionally carries the
`lineBreak` flag). -/
structure CommentLoopSt where
  scan : ScannerState
  lineBreak : Bool
  n : Nat
  hasError : Bool
  firstTokenEnd : Nat
  needsLineBreak : Bool
  replaceContent : JStr
  edits : List Edit

/-- The comment-attachment loop of the new revision (format.ts lines 887–894):
`while (numberLineBreaks === 0 && (secondToken is a comment)) { ... }`. -/
def commentLoopNew (ctx : FmtCtx) (indentLevel : Int) : Nat → CommentLoopSt → CommentLoopSt
  | 0, st => st
  | fuel+1, st =>
    if st.n = 0 ∧ (st.scan.token = .lineCommentTrivia ∨ st.scan.token = .blockCommentTrivia) then
      let commentTokenStart := st.scan.tokenOffset + ctx.formatTextStart
      let edits' := addEdit ctx st.hasError st.edits [CC.space] st.firstTokenEnd commentTokenStart
      let firstTokenEnd' := st.scan.tokenOffset + tokenLength st.scan + ctx.formatTextStart
      let needsLineBreak' := st.scan.token = .lineCommentTrivia
      let replaceContent' :=
        if needsLineBreak' then newLinesAndIndentNew ctx st.n indentLevel else []
      let r := fmtScanNew ctx.formatText ctx.keepLines st.scan
      commentLoopNew ctx indentLevel fuel
        { scan := r.1, lineBreak := false, n := r.2.1, hasError := r.2.2,
          firstTokenEnd := firstTokenEnd', needsLineBreak := decide needsLineBreak',
          replaceContent := replaceContent', edits := edits' }
    else st

/-- The comment-attachment loop of the old revision (format.ts lines 586–594):
`while (!lineBreak && (secondToken is a comment)) { ... }`. -/
def commentLoopOld (ctx : FmtCtx) (indentLevel : Int) : Nat → CommentLoopSt → CommentLoopSt
  | 0, st => st
  | fuel+1, st =>
    if ¬st.lineBreak ∧ (st.scan.token = .lineCommentTrivia ∨ st.scan.token = .blockCommentTrivia) then
      let commentTokenStart := st.scan.tokenOffset + ctx.formatTextStart
      let edits' := addEdit ctx st.hasError st.edits [CC.space] st.firstTokenEnd commentTokenStart
      let firstTokenEnd' := st.scan.tokenOffset + tokenLength st.scan + ctx.formatTextStart
      let needsLineBreak' := st.scan.token = .lineCommentTrivia
      let replaceContent' :=
        if needsLineBreak' then newLinesAndIndentOld ctx st.n indentLevel else []
      let r := fmtScanOld ctx.formatText ctx.keepLines st.scan
      commentLoopOld ctx indentLevel fuel
        { scan := r.1, lineBreak := r.2.1, n := r.2.2.1, hasError := r.2.2.2,
          firstTokenEnd := firstTokenEnd', needsLineBreak := decide needsLineBreak',
          replaceContent := replaceContent', edits := edits' }
    else st

/-- The replacement decision of the new revision for one token pair
(format.ts lines 896–984, including the line-974 comment override and the
line-978 EOF override).  Takes the incoming `replaceContent` (`rc`) and
`indentLevel`; returns the final `replaceContent`, the updated `indentLevel`,
and whether the switch set `hasError`. -/
def pairReplacementNew (ctx : FmtCtx) (firstToken secondToken : SyntaxKind) (n : Nat)
    (needsLineBreak : Bool) (rc : JStr) (indentLevel : Int) : JStr × Int × Bool :=
  let kl := ctx.keepLines
  let base : JStr × Int × Bool :=
    if secondToken = .closeBraceToken then
      let il := if firstToken ≠ .openBraceToken then indentLevel - 1 else indentLevel
      if (kl = true ∧ n > 0) ∨ (kl = false ∧ firstToken ≠ .openBraceToken) then
        (newLinesAndIndentNew ctx n il, il, false)
      else if kl then ([CC.space], il, false)
      else (rc, il, false)
    else if secondToken = .closeBracketToken then
      let il := if firstToken ≠ .openBracketToken then indentLevel - 1 else indentLevel
      if (kl = true ∧ n > 0) ∨ (kl = false ∧ firstToken ≠ .openBracketToken) then
        (newLinesAndIndentNew ctx n il, il, false)
      else if kl then ([CC.space], il, false)
      else (rc, il, false)
    else
      let switched : JStr × Int × Bool :=
        match firstToken with
        | .openBracketToken | .openBraceToken =>
          let il := indentLevel + 1
          if (kl = true ∧ n > 0) ∨ kl = false then (newLinesAndIndentNew ctx n il, il, false)
          else ([CC.space], il, false)
        | .commaToken =>
          if (kl = true ∧ n > 0) ∨ kl = false then
            (newLinesAndIndentNew ctx n indentLevel, indentLevel, false)
          else ([CC.space], indentLevel, false)
        | .lineCommentTrivia => (newLinesAndIndentNew ctx n indentLevel, indentLevel, false)
        | .blockCommentTrivia =>
          if n > 0 then (newLinesAndIndentNew ctx n indentLevel, indentLevel, false)
          else if needsLineBreak = false then ([CC.space], indentLevel, false)
          else (rc, indentLevel, false)
        | .colonToken =>
          if kl = true ∧ n > 0 then (newLinesAndIndentNew ctx n indentLevel, indentLevel, false)
          else if needsLineBreak = false then ([CC.space], indentLevel, false)
          else (rc, indentLevel, false)
        | .stringLiteral =>
          if kl = true ∧ n > 0 then (newLinesAndIndentNew ctx n indentLevel, indentLevel, false)
          else if secondToken = .colonToken ∧ needsLineBreak = false then ([], indentLevel, false)
          else (rc, indentLevel, false)
        | .nullKeyword | .trueKeyword | .falseKeyword | .numericLiteral
        | .closeBraceToken | .closeBracketToken =>
          if kl = true ∧ n > 0 then (newLinesAndIndentNew ctx n indentLevel, indentLevel, false)
          else if (secondToken = .lineCommentTrivia ∨ secondToken = .blockCommentTrivia) ∧
              needsLineBreak = false then
            ([CC.space], indentLevel, false)
          else if secondToken ≠ .commaToken ∧ secondToken ≠ .eof then (rc, indentLevel, true)
          else (rc, indentLevel, false)
        | .unknown => (rc, indentLevel, true)
        | _ => (rc, indentLevel, false)
      if n > 0 ∧ (secondToken = .lineCommentTrivia ∨ secondToken = .blockCommentTrivia) then
        (newLinesAndIndentNew ctx n switched.2.1, switched.2.1, switched.2.2)
      else switched
  if secondToken = .eof then
    if kl = true ∧ n > 0 then (newLinesAndIndentNew ctx n base.2.1, base.2.1, base.2.2)
    else ((if ctx.insertFinalNewline then ctx.eol else []), base.2.1, base.2.2)
  else base

/-- The replacement decision of the old revision for one token pair
(format.ts lines 596–737), with the `lineBreak` flag in place of a
line-break count. -/
def pairReplacementOld (ctx : FmtCtx) (firstToken secondToken : SyntaxKind) (lineBreak : Bool)
    (n : Nat) (needsLineBreak : Bool) (rc : JStr) (indentLevel : Int) : JStr × Int × Bool :=
  let kl := ctx.keepLines
  let base : JStr × Int × Bool :=
    if secondToken = .closeBraceToken then
      if kl then
        let il := if firstToken ≠ .openBraceToken then indentLevel - 1 else indentLevel
        if lineBreak then (newLinesAndIndentOld ctx n il, il, false)
        else ([CC.space], il, false)
      else if firstToken ≠ .openBraceToken then
        (newLinesAndIndentOld ctx n (indentLevel - 1), indentLevel - 1, false)
      else (rc, indentLevel, false)
    else if secondToken = .closeBracketToken then
      if kl then
        let il := if firstToken ≠ .openBracketToken then indentLevel - 1 else indentLevel
        if lineBreak then (newLinesAndIndentOld ctx n il, il, false)
        else ([CC.space], il, false)
      else if firstToken ≠ .openBracketToken then
        (newLinesAndIndentOld ctx n (indentLevel - 1), indentLevel - 1, false)
      else (rc, indentLevel, false)
    else
      let switched : JStr × Int × Bool :=
        match firstToken with
        | .openBracketToken | .openBraceToken =>
          let il := indentLevel + 1
          if kl then
            if lineBreak then (newLinesAndIndentOld ctx n il, il, false)
            else ([CC.space], il, false)
          else (newLinesAndIndentOld ctx n il, il, false)
        | .commaToken =>
          if kl then
            if lineBreak then (newLinesAndIndentOld ctx n indentLevel, indentLevel, false)
            else ([CC.space], indentLevel, false)
          else (newLinesAndIndentOld ctx n indentLevel, indentLevel, false)
        | .lineCommentTrivia => (newLinesAndIndentOld ctx n indentLevel, indentLevel, false)
        | .blockCommentTrivia =>
          if lineBreak then (newLinesAndIndentOld ctx n indentLevel, indentLevel, false)
          else if needsLineBreak = false then ([CC.space], indentLevel, false)
          else (rc, indentLevel, false)
        | .colonToken =>
          if kl then
            if lineBreak then (newLinesAndIndentOld ctx n indentLevel, indentLevel, false)
            else if needsLineBreak = false then ([CC.space], indentLevel, false)
            else (rc, indentLevel, false)
          else if needsLineBreak = false then ([CC.space], indentLevel, false)
          else (rc, indentLevel, false)
        | .stringLiteral =>
          if kl then
            if lineBreak then (newLinesAndIndentOld ctx n indentLevel, indentLevel, false)
            else if secondToken = .colonToken ∧ needsLineBreak = false then ([], indentLevel, false)
            else (rc, indentLevel, false)
          else if secondToken = .colonToken ∧ needsLineBreak = false then ([], indentLevel, false)
          else (rc, indentLevel, false)
        | .nullKeyword | .trueKeyword | .falseKeyword | .numericLiteral
        | .closeBraceToken | .closeBracketToken =>
          if kl then
            if lineBreak then (newLinesAndIndentOld ctx n indentLevel, indentLevel, false)
            else if secondToken = .lineCommentTrivia ∨ secondToken = .blockCommentTrivia then
              if needsLineBreak = false then ([CC.space], indentLevel, false)
              else (rc, indentLevel, false)
            else if secondToken ≠ .commaToken ∧ secondToken ≠ .eof then (rc, indentLevel, true)
            else (rc, indentLevel, false)
          else if secondToken = .lineCommentTrivia ∨ secondToken = .blockCommentTrivia then
            if needsLineBreak = false then ([CC.space], indentLevel, false)
            else (rc, indentLevel, false)
          else if secondToken ≠ .commaToken ∧ secondToken ≠ .eof then (rc, indentLevel, true)
          else (rc, indentLevel, false)
        | .unknown => (rc, indentLevel, true)
        | _ => (rc, indentLevel, false)
      if lineBreak ∧ (secondToken = .lineCommentTrivia ∨ secondToken = .blockCommentTrivia) then
        (newLinesAndIndentOld ctx n switched.2.1, switched.2.1, switched.2.2)
      else switched
  if secondToken = .eof then
    if kl then
      if lineBreak then (newLinesAndIndentOld ctx n base.2.1, base.2.1, base.2.2)
      else ((if ctx.insertFinalNewline then ctx.eol else []), base.2.1, base.2.2)
    else ((if ctx.insertFinalNewline then ctx.eol else []), base.2.1, base.2.2)
  else base

/-- The state threaded through the pair loop of `format`. -/
structure FmtLoopSt where
  scan : ScannerState
  indentLevel : Int
  edits : List Edit

/-- One iteration of the new revision's pair loop (format.ts lines 880–988). -/
def newFmtStep (ctx : FmtCtx) (firstToken : SyntaxKind) (st : FmtLoopSt) :
    SyntaxKind × FmtLoopSt :=
  let t := ctx.formatText
  let firstTokenEnd := st.scan.tokenOffset + tokenLength st.scan + ctx.formatTextStart
  let r := fmtScanNew t ctx.keepLines st.scan
  let cst := commentLoopNew ctx st.indentLevel (t.length + 2)
    { scan := r.1, lineBreak := false, n := r.2.1, hasError := r.2.2,
      firstTokenEnd := firstTokenEnd, needsLineBreak := false, replaceContent := [],
      edits := st.edits }
  let secondToken := cst.scan.token
  let pr := pairReplacementNew ctx firstToken secondToken cst.n cst.needsLineBreak
    cst.replaceContent st.indentLevel
  let hasError' := cst.hasError || pr.2.2
  let secondTokenStart := cst.scan.tokenOffset + ctx.formatTextStart
  let edits' := addEdit ctx hasError' cst.edits pr.1 cst.firstTokenEnd secondTokenStart
  (secondToken, { scan := cst.scan, indentLevel := pr.2.1, edits := edits' })

/-- One iteration of the old revision's pair loop (format.ts lines 580–741). -/
def oldFmtStep (ctx : FmtCtx) (firstToken : SyntaxKind) (st : FmtLoopSt) :
    SyntaxKind × FmtLoopSt :=
  let t := ctx.formatText
  let firstTokenEnd := st.scan.tokenOffset + tokenLength st.scan + ctx.formatTextStart
  let r := fmtScanOld t ctx.keepLines st.scan
  let cst := commentLoopOld ctx st.indentLevel (t.length + 2)
    { scan := r.1, lineBreak := r.2.1, n := r.2.2.1, hasError := r.2.2.2,
      firstTokenEnd := firstTokenEnd, needsLineBreak := false, replaceContent := [],
      edits := st.edits }
  let secondToken := cst.scan.token
  let pr := pairReplacementOld ctx firstToken secondToken cst.lineBreak cst.n
    cst.needsLineBreak cst.replaceContent st.indentLevel
  let hasError' := cst.hasError || pr.2.2
  let secondTokenStart := cst.scan.tokenOffset + ctx.formatTextStart
  let edits' := addEdit ctx hasError' cst.edits pr.1 cst.firstTokenEnd secondTokenStart
  (secondToken, { scan := cst.scan, indentLevel := pr.2.1, edits := edits' })

/-- `while (firstToken !== SyntaxKind.EOF)` of the new revision. -/
def newFmtLoop (ctx : FmtCtx) : Nat → SyntaxKind → FmtLoopSt → List Edit
  | 0, _, st => st.edits
  | fuel+1, firstToken, st =>
    if firstToken = .eof then st.edits
    else
      let r := newFmtStep ctx firstToken st
      newFmtLoop ctx fuel r.1 r.2

/-- `while (firstToken !== SyntaxKind.EOF)` of the old revision. -/
def oldFmtLoop (ctx : FmtCtx) : Nat → SyntaxKind → FmtLoopSt → List Edit
  | 0, _, st => st.edits
  | fuel+1, firstToken, st =>
    if firstToken = .eof then st.edits
    else
      let r := oldFmtStep ctx firstToken st
      oldFmtLoop ctx fuel r.1 r.2

/-- `format` of the new revision (format.ts lines 797–990). -/
def formatNew (documentText : JStr) (range : Option Range) (o : FormattingOptions) :
    List Edit :=
  let ctx := mkFmtCtx documentText range o
  let t := ctx.formatText
  let r := fmtScanNew t ctx.keepLines initScanner
  let s1 := r.1
  let n1 := r.2.1
  let he1 := r.2.2
  let edits0 : List Edit :=
    if ctx.keepLines ∧ n1 > 0 then addEdit ctx he1 [] (repeatJ ctx.eol (n1 : Int)) 0 0 else []
  let firstToken := s1.token
  let edits1 :=
    if firstToken ≠ .eof then
      let firstTokenStart := s1.tokenOffset + ctx.formatTextStart
      let initialIndent := repeatJ ctx.indentValue (ctx.initialIndentLevel : Int)
      addEdit ctx he1 edits0 initialIndent ctx.formatTextStart firstTokenStart
    else edits0
  newFmtLoop ctx (t.length + 3) firstToken { scan := s1, indentLevel := 0, edits := edits1 }

/-- `format` of the old revision (format.ts lines 501–743; it has no
line-870 leading-line-break edit). -/
def formatOld (documentText : JStr) (range : Option Range) (o : FormattingOptions) :
    List Edit :=
  let ctx := mkFmtCtx documentText range o
  let t := ctx.formatText
  let r := fmtScanOld t ctx.keepLines initScanner
  let s1 := r.1
  let he1 := r.2.2.2
  let firstToken := s1.token
  let edits1 :=
    if firstToken ≠ .eof then
      let firstTokenStart := s1.tokenOffset + ctx.formatTextStart
      let initialIndent := repeatJ ctx.indentValue (ctx.initialIndentLevel : Int)
      addEdit ctx he1 [] initialIndent ctx.formatTextStart firstTokenStart
    else []
  oldFmtLoop ctx (t.length + 3) firstToken { scan := s1, indentLevel := 0, edits := edits1 }

/-- Modelled from the spec: the "thin apply-edits helper" (`applyEdit` of the
missing edit.ts): replace the span `[offset, offset + length)` by `content`
(JavaScript's `substring` clamps a negative end of the span to the start). -/
def applyEdit (text : JStr) (e : Edit) : JStr :=
  text.take e.offset ++ e.content ++ text.drop ((e.offset : Int) + e.length).toNat

/-- `applyEdits` (main.ts lines 1414–1419): apply from the last edit to the
first. -/
def applyEdits (text : JStr) (edits : List Edit) : JStr :=
  edits.reverse.foldl applyEdit text

/-- How one scanned token is followed by the next, for a text of length
`len`: either the spans tile exactly, or (only at the very end) an
unterminated block comment overran the text by one and is followed by the
EOF token at offset `len`. -/
def tokenLink (len : Nat) (a b : TokenInfo) : Prop :=
  a.offset + a.length = b.offset ∨
    (b.kind = .eof ∧ b.offset = len ∧ a.kind = .blockCommentTrivia ∧
      a.err = .unexpectedEndOfComment ∧ a.offset + a.length = len + 1)

/-- The text contains no two adjacent `/` characters (so the scanner can
never produce a `LineCommentTrivia` token from it). -/
def noDoubleSlash (t : JStr) : Prop :=
  ∀ p, ¬(chAt t p = some CC.slash ∧ chAt t (p + 1) = some CC.slash)

/-- A string character that the `scanString` loop passes through unchanged:
not a quote, not a backslash, not a control character. -/
def plainStringChar (c : Nat) : Prop :=
  c ≠ CC.doubleQuote ∧ c ≠ CC.backslash ∧ 0x20 ≤ c

/-! # Theorems -/

/-! ## Bounds and progress of the scanner loops -/

theorem chAt_lt {t : JStr} {p c : Nat} (h : chAt t p = some c) : p < t.length := by
  by_contra hh
  rw [chAt, List.getElem?_eq_none (Nat.le_of_not_lt hh)] at h
  exact Option.noConfusion h

theorem chAt_isSome_of_lt {t : JStr} {p : Nat} (h : p < t.length) :
    ∃ c, chAt t p = some c :=
  ⟨t[p], by rw [chAt, List.getElem?_eq_getElem h]⟩

theorem wsLoop_bound (t : JStr) :
    ∀ fuel pos code acc, pos < t.length →
      pos < (wsLoop t fuel pos code acc).1 ∧ (wsLoop t fuel pos code acc).1 ≤ t.length := by
  intro fuel
  induction fuel with
  | zero => intro pos code acc h; simp only [wsLoop]; omega
  | succ fl ih =>
    intro pos code acc h
    simp only [wsLoop]
    cases hc : chAt t (pos + 1) with
    | none => dsimp only; omega
    | some c =>
      dsimp only
      by_cases hw : isWhiteSpace c = true
      · rw [if_pos hw]
        have := ih (pos + 1) c (acc ++ [code]) (chAt_lt hc)
        omega
      · rw [if_neg hw]
        omega

theorem digitRun_bound (t : JStr) :
    ∀ fuel pos, pos ≤ t.length →
      pos ≤ digitRun t fuel pos ∧ digitRun t fuel pos ≤ t.length := by
  intro fuel
  induction fuel with
  | zero => intro pos h; simp only [digitRun]; omega
  | succ fl ih =>
    intro pos h
    simp only [digitRun]
    by_cases hd : isDigitO (chAt t pos) = true
    · have hlt : pos < t.length := by
        cases hc : chAt t pos with
        | none => rw [hc] at hd; simp [isDigitO] at hd
        | some c => exact chAt_lt hc
      rw [if_pos hd]
      have := ih (pos + 1) (by omega)
      omega
    · rw [if_neg hd]
      omega

theorem lineCommentEnd_bound (t : JStr) :
    ∀ fuel pos, pos ≤ t.length →
      pos ≤ lineCommentEnd t fuel pos ∧ lineCommentEnd t fuel pos ≤ t.length := by
  intro fuel
  induction fuel with
  | zero => intro pos h; simp only [lineCommentEnd]; omega
  | succ fl ih =>
    intro pos h
    simp only [lineCommentEnd]
    by_cases hlt : pos < t.length
    · rw [if_pos hlt]
      by_cases hb : isLineBreakO (chAt t pos) = true
      · rw [if_pos hb]; omega
      · rw [if_neg hb]
        have := ih (pos + 1) (by omega)
        omega
    · rw [if_neg hlt]; omega

theorem unknownRun_bound (t : JStr) :
    ∀ fuel pos, pos ≤ t.length →
      pos ≤ unknownRun t fuel pos ∧ unknownRun t fuel pos ≤ t.length := by
  intro fuel
  induction fuel with
  | zero => intro pos h; simp only [unknownRun]; omega
  | succ fl ih =>
    intro pos h
    simp only [unknownRun]
    cases hc : chAt t pos with
    | none => dsimp only; omega
    | some c =>
      dsimp only
      by_cases hu : isUnknownContentCharacter c = true
      · rw [if_pos hu]
        have := ih (pos + 1) (chAt_lt hc)
        omega
      · rw [if_neg hu]; omega

theorem hexDigitsGo_bound (t : JStr) :
    ∀ remaining pos value, pos ≤ t.length →
      pos ≤ (hexDigitsGo t remaining pos value).2 ∧
      (hexDigitsGo t remaining pos value).2 ≤ t.length := by
  intro remaining
  induction remaining with
  | zero => intro pos value h; simp only [hexDigitsGo]; omega
  | succ rem ih =>
    intro pos value h
    simp only [hexDigitsGo]
    cases hc : chAt t pos with
    | none => dsimp only; omega
    | some c =>
      dsimp only
      cases hv : hexVal c with
      | none => dsimp only; omega
      | some d =>
        dsimp only
        have := ih (pos + 1) (value * 16 + d) (chAt_lt hc)
        omega

theorem scanHexDigits4_bound (t : JStr) (pos : Nat) (h : pos ≤ t.length) :
    pos ≤ (scanHexDigits4 t pos).2 ∧ (scanHexDigits4 t pos).2 ≤ t.length :=
  hexDigitsGo_bound t 4 pos 0 h

theorem scanStringGo_bound (t : JStr) :
    ∀ fuel start pos acc err, pos ≤ t.length →
      pos ≤ (scanStringGo t fuel start pos acc err).2.1 ∧
      (scanStringGo t fuel start pos acc err).2.1 ≤ t.length := by
  intro fuel
  induction fuel with
  | zero => intro start pos acc err h; simp only [scanStringGo]; omega
  | succ fl ih =>
    intro start pos acc err h
    simp only [scanStringGo]
    by_cases hend : t.length ≤ pos
    · rw [if_pos hend]; dsimp only; omega
    · rw [if_neg hend]
      cases hc : chAt t pos with
      | none => dsimp only; omega
      | some ch =>
        dsimp only
        have hlt : pos < t.length := chAt_lt hc
        by_cases hq : ch = CC.doubleQuote
        · rw [if_pos hq]; dsimp only; omega
        · rw [if_neg hq]
          by_cases hb : ch = CC.backslash
          · rw [if_pos hb]
            by_cases hend1 : t.length ≤ pos + 1
            · rw [if_pos hend1]; dsimp only; omega
            · rw [if_neg hend1]
              cases hc2 : chAt t (pos + 1) with
              | none => dsimp only; omega
              | some ch2 =>
                dsimp only
                have hlt2 : pos + 1 < t.length := chAt_lt hc2
                have hrec2 : ∀ p3 acc2 err2, pos ≤ p3 → p3 ≤ t.length →
                    pos ≤ (scanStringGo t fl p3 p3 acc2 err2).2.1 ∧
                    (scanStringGo t fl p3 p3 acc2 err2).2.1 ≤ t.length := by
                  intro p3 acc2 err2 hp3 hp3'
                  have := ih p3 p3 acc2 err2 hp3'
                  omega
                by_cases e1 : ch2 = CC.doubleQuote
                · rw [if_pos e1]; exact hrec2 _ _ _ (by omega) (by omega)
                · rw [if_neg e1]
                  by_cases e2 : ch2 = CC.backslash
                  · rw [if_pos e2]; exact hrec2 _ _ _ (by omega) (by omega)
                  · rw [if_neg e2]
                    by_cases e3 : ch2 = CC.slash
                    · rw [if_pos e3]; exact hrec2 _ _ _ (by omega) (by omega)
                    · rw [if_neg e3]
                      by_cases e4 : ch2 = CC.b
                      · rw [if_pos e4]; exact hrec2 _ _ _ (by omega) (by omega)
                      · rw [if_neg e4]
                        by_cases e5 : ch2 = CC.f
                        · rw [if_pos e5]; exact hrec2 _ _ _ (by omega) (by omega)
                        · rw [if_neg e5]
                          by_cases e6 : ch2 = CC.n
                          · rw [if_pos e6]; exact hrec2 _ _ _ (by omega) (by omega)
                          · rw [if_neg e6]
                            by_cases e7 : ch2 = CC.r
                            · rw [if_pos e7]; exact hrec2 _ _ _ (by omega) (by omega)
                            · rw [if_neg e7]
                              by_cases e8 : ch2 = CC.t
                              · rw [if_pos e8]; exact hrec2 _ _ _ (by omega) (by omega)
                              · rw [if_neg e8]
                                by_cases e9 : ch2 = CC.u
                                · rw [if_pos e9]
                                  have hhb := scanHexDigits4_bound t (pos + 1 + 1) (by omega)
                                  cases hhx : scanHexDigits4 t (pos + 1 + 1) with
                                  | mk v pos3 =>
                                    rw [hhx] at hhb
                                    cases v with
                                    | some v0 =>
                                      dsimp only
                                      exact hrec2 _ _ _ (by omega) (by exact hhb.2)
                                    | none =>
                                      dsimp only
                                      exact hrec2 _ _ _ (by omega) (by exact hhb.2)
                                · rw [if_neg e9]
                                  exact hrec2 _ _ _ (by omega) (by omega)
          · rw [if_neg hb]
            by_cases hctl : ch ≤ 0x1F
            · rw [if_pos hctl]
              by_cases hbr : isLineBreak ch = true
              · rw [if_pos hbr]; dsimp only; omega
              · rw [if_neg hbr]
                have := ih start (pos + 1) acc ScanError.invalidCharacter (by omega)
                omega
            · rw [if_neg hctl]
              have := ih start (pos + 1) acc err (by omega)
              omega

theorem blockCommentLoop_bound (t : JStr) :
    ∀ fuel pos ln tls, pos ≤ t.length →
      pos ≤ (blockCommentLoop t fuel pos ln tls).1 ∧
      (blockCommentLoop t fuel pos ln tls).1 ≤ t.length := by
  intro fuel
  induction fuel with
  | zero => intro pos ln tls h; simp only [blockCommentLoop]; omega
  | succ fl ih =>
    intro pos ln tls h
    simp only [blockCommentLoop]
    by_cases hlt : pos < t.length - 1
    · rw [if_pos hlt]
      cases hc : chAt t pos with
      | none => dsimp only; omega
      | some ch =>
        dsimp only
        by_cases hcl : ch = CC.asterisk ∧ chAt t (pos + 1) = some CC.slash
        · rw [if_pos hcl]; dsimp only; omega
        · rw [if_neg hcl]
          by_cases hbr : isLineBreak ch = true
          · rw [if_pos hbr]
            by_cases hcr : ch = CC.carriageReturn ∧ chAt t (pos + 1) = some CC.lineFeed
            · rw [if_pos hcr]
              have hlt2 : pos + 1 < t.length := chAt_lt hcr.2
              have := ih (pos + 1 + 1) (ln + 1) (pos + 1 + 1) (by omega)
              omega
            · rw [if_neg hcr]
              have := ih (pos + 1) (ln + 1) (pos + 1) (by omega)
              omega
          · rw [if_neg hbr]
            have := ih (pos + 1) ln tls (by omega)
            omega
    · rw [if_neg hlt]; omega

theorem expPart_bound (t : JStr) (start pos : Nat) (h : pos ≤ t.length) :
    pos ≤ (expPart t start pos).2.1 ∧ (expPart t start pos).2.1 ≤ t.length := by
  unfold expPart
  by_cases he : chAt t pos = some CC.E ∨ chAt t pos = some CC.e
  · have hlt : pos < t.length := by
      rcases he with h1 | h1 <;> exact chAt_lt h1
    rw [if_pos he]
    dsimp only
    by_cases hsign : ((decide (pos + 1 < t.length) && (chAt t (pos + 1) == some CC.plus)) ||
        (chAt t (pos + 1) == some CC.minus)) = true
    · rw [if_pos hsign]
      have hlt1 : pos + 1 < t.length := by
        simp only [Bool.or_eq_true, Bool.and_eq_true, decide_eq_true_eq, beq_iff_eq] at hsign
        rcases hsign with ⟨h1, _⟩ | h2
        · exact h1
        · exact chAt_lt h2
      by_cases hd : isDigitO (chAt t (pos + 1 + 1)) = true
      · have hlt2 : pos + 1 + 1 < t.length := by
          cases hc : chAt t (pos + 1 + 1) with
          | none => rw [hc] at hd; simp [isDigitO] at hd
          | some c => exact chAt_lt hc
        rw [if_pos hd]
        have := digitRun_bound t (t.length + 2) (pos + 1 + 1 + 1) (by omega)
        dsimp only
        omega
      · rw [if_neg hd]
        dsimp only
        omega
    · rw [if_neg hsign]
      by_cases hd : isDigitO (chAt t (pos + 1)) = true
      · have hlt2 : pos + 1 < t.length := by
          cases hc : chAt t (pos + 1) with
          | none => rw [hc] at hd; simp [isDigitO] at hd
          | some c => exact chAt_lt hc
        rw [if_pos hd]
        have := digitRun_bound t (t.length + 2) (pos + 1 + 1) (by omega)
        dsimp only
        omega
      · rw [if_neg hd]
        dsimp only
        omega
  · rw [if_neg he]
    dsimp only
    omega

theorem scanNumber_bound (t : JStr) (start : Nat) (h : start < t.length) :
    start < (scanNumber t start).2.1 ∧ (scanNumber t start).2.1 ≤ t.length := by
  have hpos1 : ∀ pos1, start < pos1 → pos1 ≤ t.length →
      start < (if chAt t pos1 = some CC.dot then
          if isDigitO (chAt t (pos1 + 1)) = true then
            expPart t start (digitRun t (t.length + 2) (pos1 + 2))
          else (substringJS t start (pos1 + 1), pos1 + 1, ScanError.unexpectedEndOfNumber)
        else expPart t start pos1).2.1 ∧
      (if chAt t pos1 = some CC.dot then
          if isDigitO (chAt t (pos1 + 1)) = true then
            expPart t start (digitRun t (t.length + 2) (pos1 + 2))
          else (substringJS t start (pos1 + 1), pos1 + 1, ScanError.unexpectedEndOfNumber)
        else expPart t start pos1).2.1 ≤ t.length := by
    intro pos1 hgt hle
    by_cases hdot : chAt t pos1 = some CC.dot
    · have hlt1 : pos1 < t.length := chAt_lt hdot
      rw [if_pos hdot]
      by_cases hd : isDigitO (chAt t (pos1 + 1)) = true
      · have hlt2 : pos1 + 1 < t.length := by
          cases hc : chAt t (pos1 + 1) with
          | none => rw [hc] at hd; simp [isDigitO] at hd
          | some c => exact chAt_lt hc
        rw [if_pos hd]
        have hdr := digitRun_bound t (t.length + 2) (pos1 + 2) (by omega)
        have := expPart_bound t start (digitRun t (t.length + 2) (pos1 + 2)) hdr.2
        omega
      · rw [if_neg hd]
        dsimp only
        omega
    · rw [if_neg hdot]
      have := expPart_bound t start pos1 hle
      omega
  unfold scanNumber
  dsimp only
  by_cases h0 : chAt t start = some CC._0
  · rw [if_pos h0]
    exact hpos1 (start + 1) (by omega) (by omega)
  · rw [if_neg h0]
    have hdr := digitRun_bound t (t.length + 2) (start + 1) (by omega)
    exact hpos1 (digitRun t (t.length + 2) (start + 1)) (by omega) hdr.2

/-! ## Progress and offsets of `scanNext` -/

theorem scanNext_eof (t : JStr) (s : ScannerState) (h : t.length ≤ s.pos) :
    scanNext t s =
      { s with value := [], scanError := ScanError.none, tokenOffset := t.length,
               lineStartOffset := s.lineNumber,
               prevTokenLineStartOffset := s.tokenLineStartOffset, token := .eof } := by
  unfold scanNext
  rw [if_pos h]

theorem scanNext_spec (t : JStr) (s : ScannerState) (h : s.pos < t.length) :
    (scanNext t s).tokenOffset = s.pos ∧
    (scanNext t s).token ≠ .eof ∧
    s.pos < (scanNext t s).pos ∧
    ((scanNext t s).pos ≤ t.length ∨
      ((scanNext t s).pos = t.length + 1 ∧ (scanNext t s).token = .blockCommentTrivia ∧
        (scanNext t s).scanError = .unexpectedEndOfComment)) := by
  unfold scanNext
  rw [if_neg (by omega : ¬ t.length ≤ s.pos)]
  cases hc : chAt t s.pos with
  | none =>
    obtain ⟨c, hc2⟩ := chAt_isSome_of_lt h
    rw [hc] at hc2
    exact Option.noConfusion hc2
  | some code =>
    dsimp only
    by_cases hw : isWhiteSpace code = true
    · rw [if_pos hw]
      have := wsLoop_bound t (t.length + 2) s.pos code [] h
      exact ⟨rfl, by simp, by dsimp only; omega, Or.inl (by dsimp only; omega)⟩
    · rw [if_neg hw]
      by_cases hlb : isLineBreak code = true
      · rw [if_pos hlb]
        by_cases hcr : code = CC.carriageReturn ∧ chAt t (s.pos + 1) = some CC.lineFeed
        · rw [if_pos hcr]
          have := chAt_lt hcr.2
          exact ⟨rfl, by simp, by dsimp only; omega, Or.inl (by dsimp only; omega)⟩
        · rw [if_neg hcr]
          exact ⟨rfl, by simp, by dsimp only; omega, Or.inl (by dsimp only; omega)⟩
      · rw [if_neg hlb]
        by_cases h1 : code = CC.openBrace
        · rw [if_pos h1]; exact ⟨rfl, by simp, by dsimp only; omega, Or.inl (by dsimp only; omega)⟩
        · rw [if_neg h1]
          by_cases h2 : code = CC.closeBrace
          · rw [if_pos h2]; exact ⟨rfl, by simp, by dsimp only; omega, Or.inl (by dsimp only; omega)⟩
          · rw [if_neg h2]
            by_cases h3 : code = CC.openBracket
            · rw [if_pos h3]; exact ⟨rfl, by simp, by dsimp only; omega, Or.inl (by dsimp only; omega)⟩
            · rw [if_neg h3]
              by_cases h4 : code = CC.closeBracket
              · rw [if_pos h4]; exact ⟨rfl, by simp, by dsimp only; omega, Or.inl (by dsimp only; omega)⟩
              · rw [if_neg h4]
                by_cases h5 : code = CC.colon
                · rw [if_pos h5]; exact ⟨rfl, by simp, by dsimp only; omega, Or.inl (by dsimp only; omega)⟩
                · rw [if_neg h5]
                  by_cases h6 : code = CC.comma
                  · rw [if_pos h6]; exact ⟨rfl, by simp, by dsimp only; omega, Or.inl (by dsimp only; omega)⟩
                  · rw [if_neg h6]
                    by_cases h7 : code = CC.doubleQuote
                    · rw [if_pos h7]
                      have := scanStringGo_bound t (t.length + 2) (s.pos + 1) (s.pos + 1)
                        [] ScanError.none (by omega)
                      exact ⟨rfl, by simp, by dsimp only; omega, Or.inl (by dsimp only; omega)⟩
                    · rw [if_neg h7]
                      by_cases h8 : code = CC.slash
                      · rw [if_pos h8]
                        by_cases h9 : chAt t (s.pos + 1) = some CC.slash
                        · rw [if_pos h9]
                          have h9lt := chAt_lt h9
                          have := lineCommentEnd_bound t (t.length + 2) (s.pos + 2) (by omega)
                          exact ⟨rfl, by simp, by dsimp only; omega, Or.inl (by dsimp only; omega)⟩
                        · rw [if_neg h9]
                          by_cases h10 : chAt t (s.pos + 1) = some CC.asterisk
                          · rw [if_pos h10]
                            have h10lt := chAt_lt h10
                            have hb := blockCommentLoop_bound t (t.length + 2) (s.pos + 2)
                              s.lineNumber s.tokenLineStartOffset (by omega)
                            by_cases hclosed :
                                (blockCommentLoop t (t.length + 2) (s.pos + 2)
                                  s.lineNumber s.tokenLineStartOffset).2.2.2 = true
                            · rw [if_pos hclosed, if_pos hclosed]
                              exact ⟨rfl, by simp, by dsimp only; omega, Or.inl (by dsimp only; omega)⟩
                            · rw [if_neg hclosed, if_neg hclosed]
                              refine ⟨rfl, by simp, by dsimp only; omega, ?_⟩
                              by_cases hend :
                                  (blockCommentLoop t (t.length + 2) (s.pos + 2)
                                    s.lineNumber s.tokenLineStartOffset).1 = t.length
                              · exact Or.inr ⟨by dsimp only; omega, rfl, rfl⟩
                              · exact Or.inl (by dsimp only; omega)
                          · rw [if_neg h10]
                            exact ⟨rfl, by simp, by dsimp only; omega, Or.inl (by dsimp only; omega)⟩
                      · rw [if_neg h8]
                        by_cases h11 : code = CC.minus
                        · rw [if_pos h11]
                          by_cases h12 : s.pos + 1 = t.length ∨ isDigitO (chAt t (s.pos + 1)) = false
                          · rw [if_pos h12]
                            exact ⟨rfl, by simp, by dsimp only; omega, Or.inl (by dsimp only; omega)⟩
                          · rw [if_neg h12]
                            push_neg at h12
                            have hdig : isDigitO (chAt t (s.pos + 1)) = true := by
                              rcases h12 with ⟨_, hh⟩
                              cases hv : isDigitO (chAt t (s.pos + 1))
                              · exact absurd hv hh
                              · rfl
                            have hlt1 : s.pos + 1 < t.length := by
                              cases hcc : chAt t (s.pos + 1) with
                              | none => rw [hcc] at hdig; simp [isDigitO] at hdig
                              | some c => exact chAt_lt hcc
                            have := scanNumber_bound t (s.pos + 1) hlt1
                            exact ⟨rfl, by simp, by dsimp only; omega, Or.inl (by dsimp only; omega)⟩
                        · rw [if_neg h11]
                          by_cases h13 : isDigit code = true
                          · rw [if_pos h13]
                            have := scanNumber_bound t s.pos h
                            exact ⟨rfl, by simp, by dsimp only; omega, Or.inl (by dsimp only; omega)⟩
                          · rw [if_neg h13]
                            have hur := unknownRun_bound t (t.length + 2) s.pos (by omega)
                            by_cases h14 : s.pos ≠ unknownRun t (t.length + 2) s.pos
                            · rw [if_pos h14]
                              split_ifs <;>
                                exact ⟨rfl, by simp, by dsimp only; omega, Or.inl (by dsimp only; omega)⟩
                            · rw [if_neg h14]
                              exact ⟨rfl, by simp, by dsimp only; omega, Or.inl (by dsimp only; omega)⟩

/-! ## Iterated scanning: termination, EOF stability, tiling -/

theorem scanIter_eof_reach (t : JStr) :
    ∀ m s, t.length ≤ s.pos + m → (scanIter t (m + 1) s).token = .eof := by
  intro m
  induction m with
  | zero =>
    intro s h
    show (scanIter t 0 (scanNext t s)).token = .eof
    rw [scanNext_eof t s (by omega)]
    rfl
  | succ m ih =>
    intro s h
    show (scanIter t (m + 1) (scanNext t s)).token = .eof
    by_cases hend : t.length ≤ s.pos
    · refine ih (scanNext t s) ?_
      rw [scanNext_eof t s hend]
      dsimp only
      omega
    · have hs := scanNext_spec t s (by omega)
      exact ih (scanNext t s) (by omega)

theorem scanIter_eof_stable (t : JStr) :
    ∀ k s, t.length ≤ s.pos →
      (scanIter t k s).pos = s.pos ∧ (1 ≤ k → (scanIter t k s).token = .eof) := by
  intro k
  induction k with
  | zero => intro s h; exact ⟨rfl, by omega⟩
  | succ k ih =>
    intro s h
    have he := scanNext_eof t s h
    have hpos : (scanNext t s).pos = s.pos := by rw [he]
    have htok : (scanNext t s).token = .eof := by rw [he]
    show (scanIter t k (scanNext t s)).pos = s.pos ∧ _
    have := ih (scanNext t s) (by omega)
    cases k with
    | zero => exact ⟨hpos, fun _ => htok⟩
    | succ k2 => exact ⟨by omega, fun _ => this.2 (by omega)⟩

/-- C9 (amended): every scan from a position inside the text strictly
increases the position, which stays at most `len + 1` and exceeds `len` only
with the `UnexpectedEndOfComment` scan error; a scan at or past the end
returns EOF with the position unchanged; from a fresh scanner, `len + 1`
calls suffice to reach EOF; and once the position is at or past the end,
every further call returns EOF and never moves. -/
theorem C9_amended (t : JStr) :
    (∀ s : ScannerState, s.pos < t.length →
      s.pos < (scanNext t s).pos ∧
      ((scanNext t s).pos ≤ t.length ∨
        ((scanNext t s).pos = t.length + 1 ∧
          (scanNext t s).scanError = .unexpectedEndOfComment))) ∧
    (∀ s : ScannerState, t.length ≤ s.pos →
      (scanNext t s).token = .eof ∧ (scanNext t s).pos = s.pos) ∧
    (scanIter t (t.length + 1) initScanner).token = .eof ∧
    (∀ s : ScannerState, t.length ≤ s.pos → ∀ k, 1 ≤ k →
      (scanIter t k s).token = .eof ∧ (scanIter t k s).pos = s.pos) := by
  refine ⟨?_, ?_, ?_, ?_⟩
  · intro s h
    have hs := scanNext_spec t s h
    refine ⟨hs.2.2.1, ?_⟩
    rcases hs.2.2.2 with h1 | h1
    · exact Or.inl h1
    · exact Or.inr ⟨h1.1, h1.2.2⟩
  · intro s h
    have he := scanNext_eof t s h
    rw [he]
    exact ⟨rfl, rfl⟩
  · exact scanIter_eof_reach t t.length initScanner (by simp [initScanner])
  · intro s h k hk
    have := scanIter_eof_stable t k s h
    exact ⟨this.2 hk, this.1⟩

/-- C9 witness: the amended facts evaluated on the one-character input "1":
the first scan advances the position, the second returns EOF, and the state
after two scans is EOF. -/
theorem C9_amended_witness :
    initScanner.pos < (scanNext [0x31] initScanner).pos ∧
    (scanNext [0x31] (scanNext [0x31] initScanner)).token = .eof ∧
    (scanIter [0x31] 2 initScanner).token = .eof :=
  ⟨((C9_amended [0x31]).1 initScanner (by decide)).1,
   ((C9_amended [0x31]).2.1 (scanNext [0x31] initScanner) (by decide)).1,
   (C9_amended [0x31]).2.2.1⟩

theorem tokenStream_past_eof (t : JStr) (s : ScannerState) (h : t.length ≤ s.pos) (fuel : Nat) :
    tokenStream t (fuel + 1) s =
      [{ offset := t.length, length := s.pos - t.length, kind := .eof, err := .none }] := by
  simp only [tokenStream]
  rw [scanNext_eof t s h]
  dsimp only [tokenInfo, tokenLength]
  simp

theorem tokenStream_cons (t : JStr) (fuel : Nat) (s : ScannerState) :
    tokenStream t (fuel + 1) s =
      tokenInfo (scanNext t s) ::
        (if (scanNext t s).token = SyntaxKind.eof then []
         else tokenStream t fuel (scanNext t s)) := rfl

theorem tokenStream_spec (t : JStr) :
    ∀ fuel s, t.length ≤ s.pos + fuel → s.pos ≤ t.length →
      (∀ x, (tokenStream t (fuel + 1) s).head? = some x → x.offset = s.pos) ∧
      List.Chain' (tokenLink t.length) (tokenStream t (fuel + 1) s) ∧
      (∀ x, (tokenStream t (fuel + 1) s).getLast? = some x →
        x.kind = .eof ∧ x.offset = t.length ∧ x.length ≤ 1) := by
  intro fuel
  induction fuel with
  | zero =>
    intro s h1 h2
    rw [tokenStream_past_eof t s (by omega) 0]
    refine ⟨?_, ?_, ?_⟩
    · intro x hx
      simp at hx
      rw [← hx]
      dsimp only
      omega
    · simp
    · intro x hx
      simp at hx
      rw [← hx]
      refine ⟨rfl, rfl, by dsimp only; omega⟩
  | succ f ih =>
    intro s h1 h2
    by_cases hend : t.length ≤ s.pos
    · rw [tokenStream_past_eof t s hend (f + 1)]
      refine ⟨?_, ?_, ?_⟩
      · intro x hx
        simp at hx
        rw [← hx]
        dsimp only
        omega
      · simp
      · intro x hx
        simp at hx
        rw [← hx]
        refine ⟨rfl, rfl, by dsimp only; omega⟩
    · have hlt : s.pos < t.length := by omega
      obtain ⟨hoff, hneof, hprog, hbound⟩ := scanNext_spec t s hlt
      rw [tokenStream_cons t (f + 1) s, if_neg hneof]
      rcases hbound with hle | ⟨hov, hkind, herr⟩
      · have hrest := ih (scanNext t s) (by omega) hle
        obtain ⟨z, l2, hzl⟩ : ∃ z l2, tokenStream t (f + 1) (scanNext t s) = z :: l2 :=
          ⟨_, _, tokenStream_cons t f (scanNext t s)⟩
        refine ⟨?_, ?_, ?_⟩
        · intro x hx
          simp only [List.head?_cons, Option.some.injEq] at hx
          rw [← hx]
          dsimp only [tokenInfo]
          omega
        · rw [List.chain'_cons']
          refine ⟨?_, hrest.2.1⟩
          intro y hy
          rw [Option.mem_def] at hy
          have hyoff : y.offset = (scanNext t s).pos := hrest.1 y hy
          left
          dsimp only [tokenInfo, tokenLength]
          omega
        · intro x hx
          rw [hzl, List.getLast?_cons_cons, ← hzl] at hx
          exact hrest.2.2 x hx
      · have hrest :=
          tokenStream_past_eof t (scanNext t s) (by omega) f
        rw [hrest]
        refine ⟨?_, ?_, ?_⟩
        · intro x hx
          simp only [List.head?_cons, Option.some.injEq] at hx
          rw [← hx]
          dsimp only [tokenInfo]
          omega
        · rw [List.chain'_cons']
          refine ⟨?_, by simp⟩
          intro y hy
          rw [Option.mem_def] at hy
          simp only [List.head?_cons, Option.some.injEq] at hy
          rw [← hy]
          right
          refine ⟨rfl, rfl, hkind, herr, ?_⟩
          dsimp only [tokenInfo, tokenLength]
          omega
        · intro x hx
          simp only [List.getLast?_cons_cons, List.getLast?_singleton, Option.some.injEq] at hx
          rw [← hx]
          refine ⟨rfl, rfl, by dsimp only; omega⟩

/-- C1 (amended): for every input, the token stream from a fresh scanner is
non-empty, starts at offset 0, consecutive tokens tile the text except that
an unterminated block comment at the end of the input may overrun the end by
one (then carrying `UnexpectedEndOfComment`), and the final token is EOF at
offset `len(text)` with length 0, or length 1 after such an overrun. -/
theorem C1_amended (t : JStr) :
    tokens t ≠ [] ∧
    (∀ x, (tokens t).head? = some x → x.offset = 0) ∧
    List.Chain' (tokenLink t.length) (tokens t) ∧
    (∀ x, (tokens t).getLast? = some x →
      x.kind = .eof ∧ x.offset = t.length ∧ x.length ≤ 1) := by
  have hspec := tokenStream_spec t t.length initScanner (by simp [initScanner])
    (by simp [initScanner])
  refine ⟨?_, ?_, hspec.2.1, hspec.2.2⟩
  · show tokenStream t (t.length + 1) initScanner ≠ []
    simp only [tokenStream]
    exact List.cons_ne_nil _ _
  · intro x hx
    exact hspec.1 x hx

/-- C1 witness: the amended description evaluated on `"{}"`: the stream is
the brace tokens followed by EOF, its head has offset 0, the chain of spans
tiles, and the last token is EOF at offset 2 with length 0. -/
theorem C1_amended_witness :
    ({ offset := 0, length := 1, kind := SyntaxKind.openBraceToken,
       err := ScanError.none } : TokenInfo).offset = 0 ∧
    List.Chain' (tokenLink 2) (tokens [0x7B, 0x7D]) ∧
    ({ offset := 2, length := 0, kind := SyntaxKind.eof,
       err := ScanError.none } : TokenInfo).kind = .eof :=
  ⟨(C1_amended [0x7B, 0x7D]).2.1 _ (by decide),
   (C1_amended [0x7B, 0x7D]).2.2.1,
   ((C1_amended [0x7B, 0x7D]).2.2.2 _ (by decide)).1⟩

/-! ## C5 and C6: string and number scanning details -/

theorem scanNext_lineBreak (t : JStr) (s : ScannerState) (c : Nat)
    (hc : chAt t s.pos = some c) (hlb : isLineBreak c = true) :
    (scanNext t s).token = .lineBreakTrivia ∧ (scanNext t s).tokenOffset = s.pos := by
  have hlt := chAt_lt hc
  unfold scanNext
  rw [if_neg (by omega : ¬ t.length ≤ s.pos)]
  simp only [hc]
  have hw : isWhiteSpace c = false := by
    have hcc : c = 10 ∨ c = 13 := by
      simp [isLineBreak, CC.lineFeed, CC.carriageReturn] at hlb
      exact hlb
    rcases hcc with h | h <;> subst h <;> decide
  rw [if_neg (by simp [hw]), if_pos hlb]
  exact ⟨rfl, rfl⟩

/-- C5: while scanning a string literal, (1) a raw line-break character
terminates the token immediately before it with `UnexpectedEndOfString`, the
line break left unconsumed; (2) any other raw character in `[U+0000, U+001F]`
records `InvalidCharacter` and scanning continues past it; (3) reaching the
end of input produces `UnexpectedEndOfString`; (4) the unconsumed line break
is scanned as the next token. -/
theorem C5_string_control :
    (∀ (t : JStr) fuel start pos acc err c, chAt t pos = some c → isLineBreak c = true →
      scanStringGo t (fuel + 1) start pos acc err =
        (acc ++ substringJS t start pos, pos, .unexpectedEndOfString)) ∧
    (∀ (t : JStr) fuel start pos acc err c, chAt t pos = some c → c ≤ 0x1F →
      isLineBreak c = false →
      scanStringGo t (fuel + 1) start pos acc err =
        scanStringGo t fuel start (pos + 1) acc .invalidCharacter) ∧
    (∀ (t : JStr) fuel start pos acc err, t.length ≤ pos →
      scanStringGo t (fuel + 1) start pos acc err =
        (acc ++ substringJS t start pos, pos, .unexpectedEndOfString)) ∧
    (∀ (t : JStr) (s : ScannerState) c, chAt t (scanNext t s).pos = some c →
      isLineBreak c = true →
      (scanNext t (scanNext t s)).token = .lineBreakTrivia ∧
      (scanNext t (scanNext t s)).tokenOffset = (scanNext t s).pos) := by
  refine ⟨?_, ?_, ?_, ?_⟩
  · intro t fuel start pos acc err c hc hlb
    have hlt := chAt_lt hc
    have hcc : c = 10 ∨ c = 13 := by
      simp [isLineBreak, CC.lineFeed, CC.carriageReturn] at hlb
      exact hlb
    simp only [scanStringGo, hc]
    rw [if_neg (by omega : ¬ t.length ≤ pos)]
    rcases hcc with h | h <;> subst h <;>
      simp [CC.doubleQuote, CC.backslash, isLineBreak, CC.lineFeed, CC.carriageReturn]
  · intro t fuel start pos acc err c hc hctl hlb
    have hlt := chAt_lt hc
    simp only [scanStringGo, hc]
    rw [if_neg (by omega : ¬ t.length ≤ pos)]
    rw [if_neg (by simp [CC.doubleQuote]; omega : ¬ c = CC.doubleQuote)]
    rw [if_neg (by simp [CC.backslash]; omega : ¬ c = CC.backslash)]
    rw [if_pos hctl, if_neg (by simp [hlb])]
  · intro t fuel start pos acc err h
    simp only [scanStringGo]
    rw [if_pos h]
  · intro t s c hc hlb
    exact scanNext_lineBreak t (scanNext t s) c hc hlb

/-- C5 witness: on the input consisting of a single line-feed character, the
string loop stops at once with `UnexpectedEndOfString` without consuming it,
and the scanner's next token from position 0 is `LineBreakTrivia`. -/
theorem C5_string_control_witness :
    scanStringGo [0x0A] 1 0 0 [] .none = ([], 0, .unexpectedEndOfString) ∧
    (scanNext [0x22, 0x0A] (scanNext [0x22, 0x0A] initScanner)).token = .lineBreakTrivia :=
  ⟨C5_string_control.1 [0x0A] 0 0 0 [] .none 0x0A (by decide) (by decide),
   (C5_string_control.2.2.2 [0x22, 0x0A] initScanner 0x0A (by decide) (by decide)).1⟩

/-- C6: (1) in `scanNumber`, a decimal point not followed by a digit ends the
number right after the point with `UnexpectedEndOfNumber`, the value being
the partial lexeme including the point; (2) an exponent marker (with optional
sign) not followed by a digit sets `UnexpectedEndOfNumber`, the returned
value stopping before the marker while the position is after it; (3) the
input "01" is scanned as two adjacent error-free `NumericLiteral` tokens "0"
and "1"; (4) on "1e" the token is a `NumericLiteral` of length 2 with
`UnexpectedEndOfNumber` whose value "1" is a strict prefix of the lexeme. -/
theorem C6_number_errors :
    (∀ (t : JStr) p q,
      q = (if chAt t p = some CC._0 then p + 1 else digitRun t (t.length + 2) (p + 1)) →
      chAt t q = some CC.dot → isDigitO (chAt t (q + 1)) = false →
      scanNumber t p = (substringJS t p (q + 1), q + 1, .unexpectedEndOfNumber)) ∧
    (∀ (t : JStr) start pos pos2,
      (chAt t pos = some CC.E ∨ chAt t pos = some CC.e) →
      pos2 = (if ((decide (pos + 1 < t.length) && (chAt t (pos + 1) == some CC.plus)) ||
          (chAt t (pos + 1) == some CC.minus)) = true then pos + 1 + 1 else pos + 1) →
      isDigitO (chAt t pos2) = false →
      expPart t start pos = (substringJS t start pos, pos2, .unexpectedEndOfNumber)) ∧
    tokens [0x30, 0x31] =
      [{ offset := 0, length := 1, kind := .numericLiteral, err := .none },
       { offset := 1, length := 1, kind := .numericLiteral, err := .none },
       { offset := 2, length := 0, kind := .eof, err := .none }] ∧
    ((scanNext [0x31, 0x65] initScanner).token = .numericLiteral ∧
     (scanNext [0x31, 0x65] initScanner).scanError = .unexpectedEndOfNumber ∧
     tokenLength (scanNext [0x31, 0x65] initScanner) = 2 ∧
     (scanNext [0x31, 0x65] initScanner).value = [0x31]) := by
  refine ⟨?_, ?_, by decide, by decide⟩
  · intro t p q hq hdot hd
    unfold scanNumber
    dsimp only
    rw [← hq, if_pos hdot, if_neg (by simp [hd])]
  · intro t start pos pos2 he hps hd
    unfold expPart
    rw [if_pos he]
    dsimp only
    rw [← hps, if_neg (by simp [hd])]

/-- C6 witness: the dot rule applied to "1." and the exponent rule applied to
"1e" at their concrete positions. -/
theorem C6_number_errors_witness :
    scanNumber [0x31, 0x2E] 0 = ([0x31, 0x2E], 2, .unexpectedEndOfNumber) ∧
    expPart [0x31, 0x65] 0 1 = ([0x31], 2, .unexpectedEndOfNumber) :=
  ⟨by
    have := C6_number_errors.1 [0x31, 0x2E] 0 1 (by decide) (by decide) (by decide)
    rw [this]
    decide,
   by
    have := C6_number_errors.2.1 [0x31, 0x65] 0 1 2 (by decide) (by decide) (by decide)
    rw [this]
    decide⟩

/-! ## C4: the keep-lines replacement policy -/

theorem newLinesAndIndentNew_eq (ctx : FmtCtx) (n : Nat) (il : Int) (h : 0 < n) :
    newLinesAndIndentNew ctx n il =
      repeatJ ctx.eol (n : Int) ++
        repeatJ ctx.indentValue ((ctx.initialIndentLevel : Int) + il) := by
  unfold newLinesAndIndentNew
  by_cases h1 : n > 1
  · rw [if_pos h1]
  · rw [if_neg h1]
    have h2 : n = 1 := by omega
    subst h2
    simp [repeatJ]

/-- C4: with `keepLines`, for a pair of adjacent non-trivia tokens with `n`
skipped line breaks: if `n > 0` and the pair does not raise the error flag,
the replacement is exactly `n` copies of the EOL string followed by the
current indentation (at the updated indent level); if `n = 0` (same line, no
comment forcing a break), after an open brace, an open bracket, a comma, or a
colon the replacement is a single space. -/
theorem C4_keepLines (ctx : FmtCtx) (hkl : ctx.keepLines = true)
    (firstToken secondToken : SyntaxKind) (n : Nat) (needsLineBreak : Bool)
    (rc : JStr) (il : Int)
    (hft1 : firstToken ≠ .trivia) (hft2 : firstToken ≠ .lineBreakTrivia)
    (hft3 : firstToken ≠ .eof) :
    (0 < n →
      (pairReplacementNew ctx firstToken secondToken n needsLineBreak rc il).2.2 = false →
      (pairReplacementNew ctx firstToken secondToken n needsLineBreak rc il).1 =
        repeatJ ctx.eol (n : Int) ++
          repeatJ ctx.indentValue ((ctx.initialIndentLevel : Int) +
            (pairReplacementNew ctx firstToken secondToken n needsLineBreak rc il).2.1)) ∧
    (n = 0 → needsLineBreak = false → secondToken ≠ .eof →
      (firstToken = .openBraceToken ∨ firstToken = .openBracketToken ∨
        firstToken = .commaToken ∨ firstToken = .colonToken) →
      (pairReplacementNew ctx firstToken secondToken n needsLineBreak rc il).1 =
        [CC.space]) := by
  constructor
  · intro hn herr
    have hnl : ∀ il2 : Int, newLinesAndIndentNew ctx n il2 =
        repeatJ ctx.eol (n : Int) ++
          repeatJ ctx.indentValue ((ctx.initialIndentLevel : Int) + il2) :=
      fun il2 => newLinesAndIndentNew_eq ctx n il2 hn
    cases firstToken <;> cases secondToken <;>
      simp_all [pairReplacementNew]
  · intro hn hnlb hse hfour
    rcases hfour with h | h | h | h <;> subst h <;> cases secondToken <;>
      simp_all [pairReplacementNew]

/-- C4 witness: the policy applied concretely (full-document context with
keepLines, spaces, tab size 2): two line breaks between a comma and a string
become two EOLs plus the indentation, and a comma followed on the same line
by a string gets a single space. -/
theorem C4_keepLines_witness :
    (pairReplacementNew (mkFmtCtx [0x31] none { keepLines := some true, insertSpaces := some true, tabSize := some 2 }) .commaToken .stringLiteral 2 false [] 1).1 =
      repeatJ (mkFmtCtx [0x31] none { keepLines := some true, insertSpaces := some true, tabSize := some 2 }).eol (2 : Int) ++
        repeatJ (mkFmtCtx [0x31] none { keepLines := some true, insertSpaces := some true, tabSize := some 2 }).indentValue ((0 : Int) +
          (pairReplacementNew (mkFmtCtx [0x31] none { keepLines := some true, insertSpaces := some true, tabSize := some 2 }) .commaToken .stringLiteral 2 false [] 1).2.1) ∧
    (pairReplacementNew (mkFmtCtx [0x31] none { keepLines := some true, insertSpaces := some true, tabSize := some 2 }) .commaToken .stringLiteral 0 false [] 1).1 = [CC.space] := by
  constructor
  · have h := (C4_keepLines (mkFmtCtx [0x31] none { keepLines := some true, insertSpaces := some true, tabSize := some 2 }) (by decide) .commaToken .stringLiteral 2 false [] 1 (by decide) (by decide) (by decide)).1 (by decide) (by decide)
    rw [h]
    decide
  · exact (C4_keepLines (mkFmtCtx [0x31] none { keepLines := some true, insertSpaces := some true, tabSize := some 2 }) (by decide) .commaToken .stringLiteral 0 false [] 1 (by decide) (by decide) (by decide)).2 (by decide) (by decide) (by decide) (Or.inr (Or.inr (Or.inl rfl)))

/-! ## C7: what getTokenValue returns -/

theorem substringJS_self (t : JStr) (e : Nat) : substringJS t e e = [] := by
  unfold substringJS
  simp [List.drop_take]

theorem substringJS_cons {t : JStr} {pos e c : Nat} (hc : chAt t pos = some c) (he : pos < e) :
    substringJS t pos e = c :: substringJS t (pos + 1) e := by
  have hlt : pos < t.length := chAt_lt hc
  have hgc : t[pos] = c := by
    rw [chAt] at hc
    obtain ⟨h1, h2⟩ := List.getElem?_eq_some.mp hc
    exact h2
  unfold substringJS
  rw [Nat.max_eq_right (Nat.le_of_lt he), Nat.min_eq_left (Nat.le_of_lt he),
      Nat.max_eq_right he, Nat.min_eq_left he]
  rw [List.drop_take, List.drop_take]
  rw [List.drop_eq_getElem_cons hlt, hgc]
  have h2 : e - pos = (e - (pos + 1)) + 1 := by omega
  rw [h2, List.take_succ_cons]

theorem substringJS_append {t : JStr} {a b c : Nat} (h1 : a ≤ b) (h2 : b ≤ c) :
    substringJS t a b ++ substringJS t b c = substringJS t a c := by
  unfold substringJS
  rw [Nat.max_eq_right h1, Nat.min_eq_left h1, Nat.max_eq_right h2, Nat.min_eq_left h2,
      Nat.max_eq_right (h1.trans h2), Nat.min_eq_left (h1.trans h2)]
  simp only [List.drop_take]
  rw [show t.drop b = (t.drop a).drop (b - a) by rw [List.drop_drop]; congr 1; omega]
  rw [← List.take_add]
  congr 1
  omega

theorem wsLoop_value (t : JStr) :
    ∀ fuel pos code acc, chAt t pos = some code →
      (wsLoop t fuel pos code acc).2 =
        acc ++ substringJS t pos (wsLoop t fuel pos code acc).1 := by
  intro fuel
  induction fuel with
  | zero =>
    intro pos code acc hc
    simp only [wsLoop]
    rw [substringJS_cons hc (Nat.lt_succ_self pos), substringJS_self]
  | succ fl ih =>
    intro pos code acc hc
    simp only [wsLoop]
    cases hc2 : chAt t (pos + 1) with
    | none =>
      dsimp only
      rw [substringJS_cons hc (Nat.lt_succ_self pos), substringJS_self]
    | some c2 =>
      dsimp only
      by_cases hw : isWhiteSpace c2 = true
      · rw [if_pos hw]
        rw [ih (pos + 1) c2 (acc ++ [code]) hc2]
        have hb := wsLoop_bound t fl (pos + 1) c2 (acc ++ [code]) (chAt_lt hc2)
        rw [substringJS_cons hc (by omega)]
        simp
      · rw [if_neg hw]
        dsimp only
        rw [substringJS_cons hc (Nat.lt_succ_self pos), substringJS_self]

theorem expPart_value (t : JStr) (start pos : Nat) (hsp : start ≤ pos) :
    ∃ e, start ≤ e ∧ e ≤ (expPart t start pos).2.1 ∧
      (expPart t start pos).1 = substringJS t start e ∧
      ((expPart t start pos).2.2 = ScanError.none → e = (expPart t start pos).2.1) := by
  unfold expPart
  by_cases he : chAt t pos = some CC.E ∨ chAt t pos = some CC.e
  · rw [if_pos he]
    have hlt : pos < t.length := by rcases he with h | h <;> exact chAt_lt h
    dsimp only
    by_cases hsign : ((decide (pos + 1 < t.length) && (chAt t (pos + 1) == some CC.plus)) ||
        (chAt t (pos + 1) == some CC.minus)) = true
    · rw [if_pos hsign]
      by_cases hd : isDigitO (chAt t (pos + 1 + 1)) = true
      · rw [if_pos hd]
        have hdr := digitRun_bound t (t.length + 2) (pos + 1 + 1 + 1) (by
          cases hcc : chAt t (pos + 1 + 1) with
          | none => rw [hcc] at hd; simp [isDigitO] at hd
          | some c => have := chAt_lt hcc; omega)
        refine ⟨digitRun t (t.length + 2) (pos + 1 + 1 + 1), by omega, by dsimp only; omega,
          rfl, fun _ => rfl⟩
      · rw [if_neg hd]
        refine ⟨pos, hsp, by dsimp only; omega, rfl, ?_⟩
        intro hcon
        exact absurd hcon (by simp)
    · rw [if_neg hsign]
      by_cases hd : isDigitO (chAt t (pos + 1)) = true
      · rw [if_pos hd]
        have hdr := digitRun_bound t (t.length + 2) (pos + 1 + 1) (by
          cases hcc : chAt t (pos + 1) with
          | none => rw [hcc] at hd; simp [isDigitO] at hd
          | some c => have := chAt_lt hcc; omega)
        refine ⟨digitRun t (t.length + 2) (pos + 1 + 1), by omega, by dsimp only; omega,
          rfl, fun _ => rfl⟩
      · rw [if_neg hd]
        refine ⟨pos, hsp, by dsimp only; omega, rfl, ?_⟩
        intro hcon
        exact absurd hcon (by simp)
  · rw [if_neg he]
    exact ⟨pos, hsp, Nat.le_refl _, rfl, fun _ => rfl⟩

theorem scanNumber_value (t : JStr) (start : Nat) (h : start < t.length) :
    ∃ e, start ≤ e ∧ e ≤ (scanNumber t start).2.1 ∧
      (scanNumber t start).1 = substringJS t start e ∧
      ((scanNumber t start).2.2 = ScanError.none → e = (scanNumber t start).2.1) := by
  have hpos1 : ∀ pos1 : Nat, start < pos1 →
      ∃ e, start ≤ e ∧
        e ≤ (if chAt t pos1 = some CC.dot then
            if isDigitO (chAt t (pos1 + 1)) = true then
              expPart t start (digitRun t (t.length + 2) (pos1 + 2))
            else (substringJS t start (pos1 + 1), pos1 + 1, ScanError.unexpectedEndOfNumber)
          else expPart t start pos1).2.1 ∧
        (if chAt t pos1 = some CC.dot then
            if isDigitO (chAt t (pos1 + 1)) = true then
              expPart t start (digitRun t (t.length + 2) (pos1 + 2))
            else (substringJS t start (pos1 + 1), pos1 + 1, ScanError.unexpectedEndOfNumber)
          else expPart t start pos1).1 = substringJS t start e ∧
        ((if chAt t pos1 = some CC.dot then
            if isDigitO (chAt t (pos1 + 1)) = true then
              expPart t start (digitRun t (t.length + 2) (pos1 + 2))
            else (substringJS t start (pos1 + 1), pos1 + 1, ScanError.unexpectedEndOfNumber)
          else expPart t start pos1).2.2 = ScanError.none →
          e = (if chAt t pos1 = some CC.dot then
            if isDigitO (chAt t (pos1 + 1)) = true then
              expPart t start (digitRun t (t.length + 2) (pos1 + 2))
            else (substringJS t start (pos1 + 1), pos1 + 1, ScanError.unexpectedEndOfNumber)
          else expPart t start pos1).2.1) := by
    intro pos1 hgt
    by_cases hdot : chAt t pos1 = some CC.dot
    · rw [if_pos hdot]
      by_cases hd : isDigitO (chAt t (pos1 + 1)) = true
      · rw [if_pos hd]
        have hdr := digitRun_bound t (t.length + 2) (pos1 + 2) (by
          cases hcc : chAt t (pos1 + 1) with
          | none => rw [hcc] at hd; simp [isDigitO] at hd
          | some c => have := chAt_lt hcc; omega)
        exact expPart_value t start (digitRun t (t.length + 2) (pos1 + 2)) (by omega)
      · rw [if_neg hd]
        refine ⟨pos1 + 1, by omega, by dsimp only; omega, rfl, ?_⟩
        intro hcon
        exact absurd hcon (by simp)
    · rw [if_neg hdot]
      exact expPart_value t start pos1 (by omega)
  unfold scanNumber
  dsimp only
  by_cases h0 : chAt t start = some CC._0
  · rw [if_pos h0]
    exact hpos1 (start + 1) (by omega)
  · rw [if_neg h0]
    have hdr := digitRun_bound t (t.length + 2) (start + 1) (by omega)
    exact hpos1 (digitRun t (t.length + 2) (start + 1)) (by omega)

theorem scanStringGo_plain (t : JStr) :
    ∀ fuel j start acc err e, chAt t e = some CC.doubleQuote → j ≤ e → e - j < fuel →
      (∀ i c, j ≤ i → i < e → chAt t i = some c → plainStringChar c) →
      scanStringGo t fuel start j acc err = (acc ++ substringJS t start e, e + 1, err) := by
  intro fuel
  induction fuel with
  | zero => intro j start acc err e hq hj hf hplain; omega
  | succ fl ih =>
    intro j start acc err e hq hj hf hplain
    by_cases hje : j = e
    · subst hje
      simp only [scanStringGo, hq]
      rw [if_neg (by have := chAt_lt hq; omega : ¬ t.length ≤ j)]
      simp
    · have hjlt : j < e := by omega
      have hjlen : j < t.length := by have := chAt_lt hq; omega
      obtain ⟨c, hc⟩ := chAt_isSome_of_lt hjlen
      have hp := hplain j c (Nat.le_refl j) hjlt hc
      simp only [scanStringGo, hc]
      rw [if_neg (by omega : ¬ t.length ≤ j)]
      rw [if_neg hp.1, if_neg hp.2.1,
          if_neg (by have := hp.2.2; omega : ¬ c ≤ 0x1F)]
      exact ih (j + 1) start acc err e hq (by omega) (by omega)
        (fun i c2 hi1 hi2 hci => hplain i c2 (by omega) hi2 hci)

/-- C7 (amended): after a scan, `getTokenValue()` holds: nothing for EOF and
the six structural tokens; the exact lexeme for keywords, `Unknown`,
whitespace and line-break trivia; the source from one character before the
token (clamped at 0) through its end for comments; the exact lexeme for
error-free numbers and a prefix of the lexeme otherwise; and for a string
of plain characters (no escapes, no control characters) the decoded content
is the source between the quotes. -/
theorem C7_amended (t : JStr) (s : ScannerState) :
    (t.length ≤ s.pos → (scanNext t s).value = []) ∧
    (s.pos < t.length →
      ((scanNext t s).token ∈ ([.openBraceToken, .closeBraceToken, .openBracketToken,
          .closeBracketToken, .colonToken, .commaToken] : List SyntaxKind) →
        (scanNext t s).value = []) ∧
      ((scanNext t s).token ∈ ([.trueKeyword, .falseKeyword, .nullKeyword, .unknown,
          .trivia, .lineBreakTrivia] : List SyntaxKind) →
        (scanNext t s).value = substringJS t (scanNext t s).tokenOffset (scanNext t s).pos) ∧
      ((scanNext t s).token ∈ ([.lineCommentTrivia, .blockCommentTrivia] : List SyntaxKind) →
        (scanNext t s).value =
          substringJS t ((scanNext t s).tokenOffset - 1) (scanNext t s).pos) ∧
      ((scanNext t s).token = .numericLiteral →
        ((scanNext t s).scanError = ScanError.none →
          (scanNext t s).value =
            substringJS t (scanNext t s).tokenOffset (scanNext t s).pos) ∧
        ∃ rest, substringJS t (scanNext t s).tokenOffset (scanNext t s).pos =
          (scanNext t s).value ++ rest)) ∧
    (∀ e, chAt t s.pos = some CC.doubleQuote → chAt t e = some CC.doubleQuote → s.pos < e →
      (∀ i c, s.pos + 1 ≤ i → i < e → chAt t i = some c → plainStringChar c) →
      (scanNext t s).value = substringJS t (s.pos + 1) e ∧
      (scanNext t s).pos = e + 1 ∧ (scanNext t s).scanError = ScanError.none ∧
      (scanNext t s).token = .stringLiteral) := by
  refine ⟨?_, ?_, ?_⟩
  · intro h
    rw [scanNext_eof t s h]
  · intro h
    unfold scanNext
    rw [if_neg (by omega : ¬ t.length ≤ s.pos)]
    cases hc : chAt t s.pos with
    | none =>
      obtain ⟨c, hc2⟩ := chAt_isSome_of_lt h
      rw [hc] at hc2
      exact Option.noConfusion hc2
    | some code =>
      dsimp only
      by_cases hw : isWhiteSpace code = true
      · rw [if_pos hw]
        refine ⟨fun hx => by simp at hx, fun _ => ?_, fun hx => by simp at hx,
          fun hx => by simp at hx⟩
        dsimp only
        rw [wsLoop_value t (t.length + 2) s.pos code [] hc]
        simp
      · rw [if_neg hw]
        by_cases hlb : isLineBreak code = true
        · rw [if_pos hlb]
          refine ⟨fun hx => by simp at hx, fun _ => ?_, fun hx => by simp at hx,
            fun hx => by simp at hx⟩
          by_cases hcr : code = CC.carriageReturn ∧ chAt t (s.pos + 1) = some CC.lineFeed
          · rw [if_pos hcr]
            dsimp only
            rw [substringJS_cons hc (by omega), substringJS_cons hcr.2 (by omega),
              substringJS_self]
          · rw [if_neg hcr]
            dsimp only
            rw [substringJS_cons hc (by omega), substringJS_self]
        · rw [if_neg hlb]
          by_cases h1 : code = CC.openBrace
          · rw [if_pos h1]
            exact ⟨fun _ => rfl, fun hx => by simp at hx, fun hx => by simp at hx,
              fun hx => by simp at hx⟩
          · rw [if_neg h1]
            by_cases h2 : code = CC.closeBrace
            · rw [if_pos h2]
              exact ⟨fun _ => rfl, fun hx => by simp at hx, fun hx => by simp at hx,
                fun hx => by simp at hx⟩
            · rw [if_neg h2]
              by_cases h3 : code = CC.openBracket
              · rw [if_pos h3]
                exact ⟨fun _ => rfl, fun hx => by simp at hx, fun hx => by simp at hx,
                  fun hx => by simp at hx⟩
              · rw [if_neg h3]
                by_cases h4 : code = CC.closeBracket
                · rw [if_pos h4]
                  exact ⟨fun _ => rfl, fun hx => by simp at hx, fun hx => by simp at hx,
                    fun hx => by simp at hx⟩
                · rw [if_neg h4]
                  by_cases h5 : code = CC.colon
                  · rw [if_pos h5]
                    exact ⟨fun _ => rfl, fun hx => by simp at hx, fun hx => by simp at hx,
                      fun hx => by simp at hx⟩
                  · rw [if_neg h5]
                    by_cases h6 : code = CC.comma
                    · rw [if_pos h6]
                      exact ⟨fun _ => rfl, fun hx => by simp at hx, fun hx => by simp at hx,
                        fun hx => by simp at hx⟩
                    · rw [if_neg h6]
                      by_cases h7 : code = CC.doubleQuote
                      · rw [if_pos h7]
                        exact ⟨fun hx => by simp at hx, fun hx => by simp at hx,
                          fun hx => by simp at hx, fun hx => by simp at hx⟩
                      · rw [if_neg h7]
                        by_cases h8 : code = CC.slash
                        · rw [if_pos h8]
                          by_cases h9 : chAt t (s.pos + 1) = some CC.slash
                          · rw [if_pos h9]
                            exact ⟨fun hx => by simp at hx, fun hx => by simp at hx,
                              fun _ => rfl, fun hx => by simp at hx⟩
                          · rw [if_neg h9]
                            by_cases h10 : chAt t (s.pos + 1) = some CC.asterisk
                            · rw [if_pos h10]
                              exact ⟨fun hx => by simp at hx, fun hx => by simp at hx,
                                fun _ => rfl, fun hx => by simp at hx⟩
                            · rw [if_neg h10]
                              refine ⟨fun hx => by simp at hx, fun _ => ?_,
                                fun hx => by simp at hx, fun hx => by simp at hx⟩
                              dsimp only
                              rw [substringJS_cons hc (by omega), substringJS_self]
                        · rw [if_neg h8]
                          by_cases h11 : code = CC.minus
                          · rw [if_pos h11]
                            by_cases h12 : s.pos + 1 = t.length ∨
                                isDigitO (chAt t (s.pos + 1)) = false
                            · rw [if_pos h12]
                              refine ⟨fun hx => by simp at hx, fun _ => ?_,
                                fun hx => by simp at hx, fun hx => by simp at hx⟩
                              dsimp only
                              rw [substringJS_cons hc (by omega), substringJS_self]
                            · rw [if_neg h12]
                              push_neg at h12
                              have hlt1 : s.pos + 1 < t.length := by
                                rcases h12 with ⟨hne, hh⟩
                                cases hcc : chAt t (s.pos + 1) with
                                | none =>
                                  exfalso
                                  apply hh
                                  rw [hcc]
                                  rfl
                                | some c2 => exact chAt_lt hcc
                              refine ⟨fun hx => by simp at hx, fun hx => by simp at hx,
                                fun hx => by simp at hx, fun _ => ?_⟩
                              obtain ⟨e, he1, he2, he3, he4⟩ := scanNumber_value t (s.pos + 1) hlt1
                              dsimp only
                              constructor
                              · intro herr
                                have he5 := he4 herr
                                rw [he3, ← substringJS_cons hc (by omega), he5]
                              · refine ⟨substringJS t e (scanNumber t (s.pos + 1)).2.1, ?_⟩
                                rw [he3, ← substringJS_cons hc (by omega)]
                                rw [substringJS_append (by omega) he2]
                          · rw [if_neg h11]
                            by_cases h13 : isDigit code = true
                            · rw [if_pos h13]
                              refine ⟨fun hx => by simp at hx, fun hx => by simp at hx,
                                fun hx => by simp at hx, fun _ => ?_⟩
                              obtain ⟨e, he1, he2, he3, he4⟩ := scanNumber_value t s.pos h
                              dsimp only
                              constructor
                              · intro herr
                                have he5 := he4 herr
                                rw [he3, he5]
                              · refine ⟨substringJS t e (scanNumber t s.pos).2.1, ?_⟩
                                rw [he3, substringJS_append he1 he2]
                            · rw [if_neg h13]
                              by_cases h14 : s.pos ≠ unknownRun t (t.length + 2) s.pos
                              · rw [if_pos h14]
                                split_ifs <;>
                                  exact ⟨fun hx => by simp at hx, fun _ => rfl,
                                    fun hx => by simp at hx, fun hx => by simp at hx⟩
                              · rw [if_neg h14]
                                refine ⟨fun hx => by simp at hx, fun _ => ?_,
                                  fun hx => by simp at hx, fun hx => by simp at hx⟩
                                dsimp only
                                rw [substringJS_cons hc (by omega), substringJS_self]
  · intro e hcq hq hlt hplain
    have hlen : s.pos < t.length := chAt_lt hcq
    have helen : e < t.length := chAt_lt hq
    unfold scanNext
    rw [if_neg (by omega : ¬ t.length ≤ s.pos)]
    simp only [hcq]
    rw [if_neg (by decide : ¬ isWhiteSpace CC.doubleQuote = true),
        if_neg (by decide : ¬ isLineBreak CC.doubleQuote = true),
        if_neg (by decide : ¬ CC.doubleQuote = CC.openBrace),
        if_neg (by decide : ¬ CC.doubleQuote = CC.closeBrace),
        if_neg (by decide : ¬ CC.doubleQuote = CC.openBracket),
        if_neg (by decide : ¬ CC.doubleQuote = CC.closeBracket),
        if_neg (by decide : ¬ CC.doubleQuote = CC.colon),
        if_neg (by decide : ¬ CC.doubleQuote = CC.comma)]
    rw [if_pos trivial]
    have hgo := scanStringGo_plain t (t.length + 2) (s.pos + 1) (s.pos + 1) [] ScanError.none
      e hq (by omega) (by omega) hplain
    dsimp only
    rw [hgo]
    exact ⟨by simp, rfl, rfl, rfl⟩

/-- C7 witness: the value facts evaluated concretely: on `"x"` the Unknown
token's value is the lexeme, on `"0"` the error-free number's value is the
lexeme, and on `"\"ab\""` the string value is the text between the quotes. -/
theorem C7_amended_witness :
    (scanNext [0x78] initScanner).value = substringJS [0x78] 0 1 ∧
    (scanNext [0x30] initScanner).value = substringJS [0x30] 0 1 ∧
    (scanNext [0x22, 0x61, 0x62, 0x22] initScanner).value =
      substringJS [0x22, 0x61, 0x62, 0x22] 1 3 :=
  ⟨(C7_amended [0x78] initScanner).2.1 (by decide) |>.2.1 (by decide),
   ((C7_amended [0x30] initScanner).2.1 (by decide) |>.2.2.2 (by decide)).1 (by decide),
   ((C7_amended [0x22, 0x61, 0x62, 0x22] initScanner).2.2 3 (by decide) (by decide)
     (by decide)
     (by
       intro i c h1 h2 hc
       have h3 : 1 ≤ i := by simpa [initScanner] using h1
       clear h1
       interval_cases i <;> (simp [chAt] at hc; subst hc; exact ⟨by decide, by decide, by decide⟩))).1⟩

/-! ## C10: the two format revisions -/

theorem noDoubleSlash_of (t : JStr)
    (h : ∀ p, p < t.length →
      ¬(chAt t p = some CC.slash ∧ chAt t (p + 1) = some CC.slash)) :
    noDoubleSlash t := by
  intro p
  by_cases hp : p < t.length
  · exact h p hp
  · intro hc
    have := chAt_lt hc.1
    omega

theorem chAt_substringJS {t : JStr} {a b p c : Nat}
    (h : chAt (substringJS t a b) p = some c) : chAt t (min a b + p) = some c := by
  unfold substringJS at h
  rw [chAt, List.getElem?_drop] at h
  rw [List.getElem?_take] at h
  by_cases hlt : min a b + p < max a b
  · rw [if_pos hlt] at h
    exact h
  · rw [if_neg hlt] at h
    exact Option.noConfusion h

theorem noDoubleSlash_substringJS {t : JStr} (hnds : noDoubleSlash t) (a b : Nat) :
    noDoubleSlash (substringJS t a b) := by
  intro p hc
  have h1 := chAt_substringJS hc.1
  have h2 := chAt_substringJS hc.2
  rw [show min a b + (p + 1) = min a b + p + 1 by omega] at h2
  exact hnds (min a b + p) ⟨h1, h2⟩

theorem noDoubleSlash_formatText {d : JStr} (hnds : noDoubleSlash d)
    (range : Option Range) (o : FormattingOptions) :
    noDoubleSlash (mkFmtCtx d range o).formatText := by
  unfold mkFmtCtx
  cases range with
  | none => dsimp only; exact hnds
  | some r => dsimp only; exact noDoubleSlash_substringJS hnds _ _

theorem scanNext_no_lineComment (t : JStr) (hnds : noDoubleSlash t) (s : ScannerState) :
    (scanNext t s).token ≠ .lineCommentTrivia := by
  by_cases hpos : t.length ≤ s.pos
  · rw [scanNext_eof t s hpos]; simp
  · unfold scanNext
    rw [if_neg hpos]
    cases hc : chAt t s.pos with
    | none => simp
    | some code =>
      dsimp only
      by_cases hw : isWhiteSpace code = true
      · rw [if_pos hw]; simp
      · rw [if_neg hw]
        by_cases hlb : isLineBreak code = true
        · rw [if_pos hlb]; simp
        · rw [if_neg hlb]
          by_cases h1 : code = CC.openBrace
          · rw [if_pos h1]; simp
          · rw [if_neg h1]
            by_cases h2 : code = CC.closeBrace
            · rw [if_pos h2]; simp
            · rw [if_neg h2]
              by_cases h3 : code = CC.openBracket
              · rw [if_pos h3]; simp
              · rw [if_neg h3]
                by_cases h4 : code = CC.closeBracket
                · rw [if_pos h4]; simp
                · rw [if_neg h4]
                  by_cases h5 : code = CC.colon
                  · rw [if_pos h5]; simp
                  · rw [if_neg h5]
                    by_cases h6 : code = CC.comma
                    · rw [if_pos h6]; simp
                    · rw [if_neg h6]
                      by_cases h7 : code = CC.doubleQuote
                      · rw [if_pos h7]; simp
                      · rw [if_neg h7]
                        by_cases h8 : code = CC.slash
                        · rw [if_pos h8]
                          by_cases h9 : chAt t (s.pos + 1) = some CC.slash
                          · rw [h8] at hc
                            exact absurd ⟨hc, h9⟩ (hnds s.pos)
                          · rw [if_neg h9]
                            by_cases h10 : chAt t (s.pos + 1) = some CC.asterisk
                            · rw [if_pos h10]; simp
                            · rw [if_neg h10]; simp
                        · rw [if_neg h8]
                          by_cases h11 : code = CC.minus
                          · rw [if_pos h11]
                            by_cases h12 : s.pos + 1 = t.length ∨
                                isDigitO (chAt t (s.pos + 1)) = false
                            · rw [if_pos h12]; simp
                            · rw [if_neg h12]; simp
                          · rw [if_neg h11]
                            by_cases h13 : isDigit code = true
                            · rw [if_pos h13]; simp
                            · rw [if_neg h13]
                              by_cases h14 : s.pos ≠ unknownRun t (t.length + 2) s.pos
                              · rw [if_pos h14]
                                split_ifs <;> simp
                              · rw [if_neg h14]; simp

theorem fmtScanGoNew_no_lineComment (t : JStr) (hnds : noDoubleSlash t) (kl : Bool) :
    ∀ fuel s n, s.token ≠ .lineCommentTrivia →
      (fmtScanGoNew t kl fuel s n).1.token ≠ .lineCommentTrivia := by
  intro fuel
  induction fuel with
  | zero => intro s n h; exact h
  | succ fl ih =>
    intro s n h
    simp only [fmtScanGoNew]
    by_cases hcond : s.token = .trivia ∨ s.token = .lineBreakTrivia
    · rw [if_pos hcond]
      exact ih (scanNext t s) _ (scanNext_no_lineComment t hnds s)
    · rw [if_neg hcond]
      exact h

theorem fmtScanNew_no_lineComment (t : JStr) (hnds : noDoubleSlash t) (kl : Bool)
    (s : ScannerState) : (fmtScanNew t kl s).1.token ≠ .lineCommentTrivia := by
  unfold fmtScanNew
  exact fmtScanGoNew_no_lineComment t hnds kl (t.length + 2) (scanNext t s) 0
    (scanNext_no_lineComment t hnds s)

theorem fmtScanGo_lockstep (t : JStr) :
    ∀ fuel s nNew, nNew ≤ 1 →
      fmtScanGoOld t false fuel s (decide (0 < nNew)) 0 =
        ((fmtScanGoNew t false fuel s nNew).1,
          decide (0 < (fmtScanGoNew t false fuel s nNew).2), 0) ∧
      (fmtScanGoNew t false fuel s nNew).2 ≤ 1 := by
  intro fuel
  induction fuel with
  | zero => intro s nNew h; exact ⟨rfl, h⟩
  | succ fl ih =>
    intro s nNew h
    by_cases hcond : s.token = .trivia ∨ s.token = .lineBreakTrivia
    · by_cases hlbt : s.token = .lineBreakTrivia
      · have hstep : fmtScanGoOld t false (fl + 1) s (decide (0 < nNew)) 0 =
            fmtScanGoOld t false fl (scanNext t s) (decide (0 < 1)) 0 := by
          simp [fmtScanGoOld, hlbt]
        have hstep2 : fmtScanGoNew t false (fl + 1) s nNew =
            fmtScanGoNew t false fl (scanNext t s) 1 := by
          simp [fmtScanGoNew, hlbt]
        rw [hstep, hstep2]
        exact ih (scanNext t s) 1 (by omega)
      · have htriv : s.token = .trivia := hcond.resolve_right hlbt
        have hstep : fmtScanGoOld t false (fl + 1) s (decide (0 < nNew)) 0 =
            fmtScanGoOld t false fl (scanNext t s) (decide (0 < nNew)) 0 := by
          simp [fmtScanGoOld, htriv,
            show (SyntaxKind.trivia == SyntaxKind.lineBreakTrivia) = false from rfl]
        have hstep2 : fmtScanGoNew t false (fl + 1) s nNew =
            fmtScanGoNew t false fl (scanNext t s) nNew := by
          simp [fmtScanGoNew, htriv]
        rw [hstep, hstep2]
        exact ih (scanNext t s) nNew h
    · have hstep : fmtScanGoOld t false (fl + 1) s (decide (0 < nNew)) 0 =
          (s, decide (0 < nNew), 0) := by
        simp [fmtScanGoOld, hcond]
      have hstep2 : fmtScanGoNew t false (fl + 1) s nNew = (s, nNew) := by
        simp [fmtScanGoNew, hcond]
      rw [hstep, hstep2]
      exact ⟨rfl, h⟩

theorem fmtScan_lockstep (t : JStr) (s : ScannerState) :
    fmtScanOld t false s =
      ((fmtScanNew t false s).1, decide (0 < (fmtScanNew t false s).2.1), 0,
        (fmtScanNew t false s).2.2) ∧
    (fmtScanNew t false s).2.1 ≤ 1 := by
  have h := fmtScanGo_lockstep t (t.length + 2) (scanNext t s) 0 (by omega)
  have h1 : fmtScanGoOld t false (t.length + 2) (scanNext t s) false 0 =
      ((fmtScanGoNew t false (t.length + 2) (scanNext t s) 0).1,
        decide (0 < (fmtScanGoNew t false (t.length + 2) (scanNext t s) 0).2), 0) := h.1
  constructor
  · unfold fmtScanOld fmtScanNew
    dsimp only
    rw [h1]
  · exact h.2

theorem newLines_lockstep (ctx : FmtCtx) (n : Nat) (il : Int) (h : n ≤ 1) :
    newLinesAndIndentOld ctx 0 il = newLinesAndIndentNew ctx n il := by
  unfold newLinesAndIndentOld newLinesAndIndentNew
  rw [if_neg (by omega : ¬ (0:Nat) > 0), if_neg (by omega : ¬ n > 1)]

theorem commentLoop_lockstep (ctx : FmtCtx) (hkl : ctx.keepLines = false)
    (hnds : noDoubleSlash ctx.formatText) (il : Int) :
    ∀ fuel cn, cn.n ≤ 1 → cn.needsLineBreak = false →
      cn.scan.token ≠ .lineCommentTrivia →
      commentLoopOld ctx il fuel { cn with lineBreak := decide (0 < cn.n), n := 0 } =
        { commentLoopNew ctx il fuel cn with
            lineBreak := decide (0 < (commentLoopNew ctx il fuel cn).n), n := 0 } ∧
      (commentLoopNew ctx il fuel cn).n ≤ 1 ∧
      (commentLoopNew ctx il fuel cn).needsLineBreak = false ∧
      (commentLoopNew ctx il fuel cn).scan.token ≠ .lineCommentTrivia := by
  intro fuel
  induction fuel with
  | zero =>
    intro cn h1 h2 h3
    exact ⟨rfl, h1, h2, h3⟩
  | succ fl ih =>
    intro cn h1 h2 h3
    simp only [commentLoopOld, commentLoopNew]
    dsimp only
    by_cases hcond : cn.n = 0 ∧
        (cn.scan.token = .lineCommentTrivia ∨ cn.scan.token = .blockCommentTrivia)
    · have hcondOld : ¬(decide (0 < cn.n) = true) ∧
          (cn.scan.token = .lineCommentTrivia ∨ cn.scan.token = .blockCommentTrivia) := by
        refine ⟨?_, hcond.2⟩
        simp only [decide_eq_true_eq]
        omega
      rw [if_pos hcondOld, if_pos hcond]
      rw [if_neg h3, if_neg h3, decide_eq_false h3]
      rw [hkl]
      have hw := fmtScan_lockstep ctx.formatText cn.scan
      rw [hw.1]
      dsimp only
      exact ih
        { scan := (fmtScanNew ctx.formatText false cn.scan).1,
          lineBreak := false,
          n := (fmtScanNew ctx.formatText false cn.scan).2.1,
          hasError := (fmtScanNew ctx.formatText false cn.scan).2.2,
          firstTokenEnd := cn.scan.tokenOffset + tokenLength cn.scan + ctx.formatTextStart,
          needsLineBreak := false, replaceContent := [], edits :=
            addEdit ctx cn.hasError cn.edits [CC.space] cn.firstTokenEnd
              (cn.scan.tokenOffset + ctx.formatTextStart) }
        hw.2 rfl (fmtScanNew_no_lineComment ctx.formatText hnds false cn.scan)
    · have hcondOld : ¬(¬(decide (0 < cn.n) = true) ∧
          (cn.scan.token = .lineCommentTrivia ∨ cn.scan.token = .blockCommentTrivia)) := by
        intro hx
        apply hcond
        refine ⟨?_, hx.2⟩
        have := hx.1
        simp only [decide_eq_true_eq] at this
        omega
      rw [if_neg hcondOld, if_neg hcond]
      exact ⟨rfl, h1, h2, h3⟩

theorem pairReplacement_lockstep (ctx : FmtCtx) (hkl : ctx.keepLines = false)
    (ft st : SyntaxKind) (n : Nat) (hn : n ≤ 1) (rc : JStr) (il : Int) :
    pairReplacementOld ctx ft st (decide (0 < n)) 0 false rc il =
      pairReplacementNew ctx ft st n false rc il := by
  have hnl : ∀ il2 : Int, newLinesAndIndentOld ctx 0 il2 = newLinesAndIndentNew ctx n il2 :=
    fun il2 => newLines_lockstep ctx n il2 hn
  rcases Nat.le_one_iff_eq_zero_or_eq_one.mp hn with h0 | h0 <;> subst h0 <;>
    cases ft <;> cases st <;>
      simp_all [pairReplacementOld, pairReplacementNew]

theorem fmtStep_lockstep (ctx : FmtCtx) (hkl : ctx.keepLines = false)
    (hnds : noDoubleSlash ctx.formatText) (ft : SyntaxKind) (st : FmtLoopSt) :
    oldFmtStep ctx ft st = newFmtStep ctx ft st := by
  unfold oldFmtStep newFmtStep
  rw [hkl]
  dsimp only
  have hw := fmtScan_lockstep ctx.formatText st.scan
  rw [hw.1]
  dsimp only
  have hcl := commentLoop_lockstep ctx hkl hnds st.indentLevel (ctx.formatText.length + 2)
    { scan := (fmtScanNew ctx.formatText false st.scan).1, lineBreak := false,
      n := (fmtScanNew ctx.formatText false st.scan).2.1,
      hasError := (fmtScanNew ctx.formatText false st.scan).2.2,
      firstTokenEnd := st.scan.tokenOffset + tokenLength st.scan + ctx.formatTextStart,
      needsLineBreak := false, replaceContent := [], edits := st.edits }
    hw.2 rfl (fmtScanNew_no_lineComment ctx.formatText hnds false st.scan)
  rw [hcl.1]
  dsimp only
  rw [hcl.2.2.1]
  rw [pairReplacement_lockstep ctx hkl ft _ _ hcl.2.1]

theorem fmtLoop_lockstep (ctx : FmtCtx) (hkl : ctx.keepLines = false)
    (hnds : noDoubleSlash ctx.formatText) :
    ∀ fuel ft st, oldFmtLoop ctx fuel ft st = newFmtLoop ctx fuel ft st := by
  intro fuel
  induction fuel with
  | zero => intro ft st; rfl
  | succ fl ih =>
    intro ft st
    simp only [oldFmtLoop, newFmtLoop]
    by_cases he : ft = .eof
    · rw [if_pos he, if_pos he]
    · rw [if_neg he, if_neg he]
      rw [fmtStep_lockstep ctx hkl hnds ft st]
      exact ih _ _

/-- C10 (amended): for every document, range, and options with `keepLines`
unset or false, if the document contains no two adjacent slashes (so no line
comment is ever scanned), the old (`lineBreak` flag) and new
(`numberLineBreaks`) revisions of `format` return identical edit lists. -/
theorem C10_amended (d : JStr) (range : Option Range) (o : FormattingOptions)
    (hkl : o.keepLines.getD false = false) (hnds : noDoubleSlash d) :
    formatOld d range o = formatNew d range o := by
  have hctx : (mkFmtCtx d range o).keepLines = false := by
    unfold mkFmtCtx
    cases range <;> dsimp only <;> exact hkl
  have hnds2 := noDoubleSlash_formatText hnds range o
  unfold formatOld formatNew
  dsimp only
  rw [hctx]
  have hw := fmtScan_lockstep (mkFmtCtx d range o).formatText initScanner
  rw [hw.1]
  dsimp only
  rw [if_neg (by simp : ¬((false = true) ∧
    0 < (fmtScanNew (mkFmtCtx d range o).formatText false initScanner).2.1))]
  exact fmtLoop_lockstep (mkFmtCtx d range o) hctx hnds2 _ _ _

/-- C10 counterexample: on `"[1 //a\n/*b*/]"` with tab size 2 and spaces
(keepLines unset), the old revision emits the edit between the line comment
and the block comment that the new revision suppresses, so the two edit
lists differ. -/
theorem C10_counterexample :
    formatOld [0x5B, 0x31, 0x20, 0x2F, 0x2F, 0x61, 0x0A, 0x2F, 0x2A, 0x62, 0x2A, 0x2F, 0x5D]
        none { tabSize := some 2, insertSpaces := some true, eol := some [0x0A] } ≠
      formatNew [0x5B, 0x31, 0x20, 0x2F, 0x2F, 0x61, 0x0A, 0x2F, 0x2A, 0x62, 0x2A, 0x2F, 0x5D]
        none { tabSize := some 2, insertSpaces := some true, eol := some [0x0A] } := by
  decide

/-- C10 witness: the amended equivalence applied to the concrete document
`"{\"a\": 1}"` with default options. -/
theorem C10_amended_witness :
    formatOld [0x7B, 0x22, 0x61, 0x22, 0x3A, 0x20, 0x31, 0x7D] none {} =
      formatNew [0x7B, 0x22, 0x61, 0x22, 0x3A, 0x20, 0x31, 0x7D] none {} :=
  C10_amended [0x7B, 0x22, 0x61, 0x22, 0x3A, 0x20, 0x31, 0x7D] none {} (by decide)
    (noDoubleSlash_of _ (by decide))

/-- C1 counterexample: on the input `"/*"` (code units 0x2F 0x2A, an
unterminated block comment reaching the end of text) the comment token has
offset 0 and length 3 on a 2-character input, so the token spans do not tile
the text (0 + 3 ≠ 2), and the final EOF token has length 1, not 0. -/
theorem C1_counterexample :
    tokens [0x2F, 0x2A] =
      [{ offset := 0, length := 3, kind := .blockCommentTrivia,
         err := .unexpectedEndOfComment },
       { offset := 2, length := 1, kind := .eof, err := .none }] ∧
    0 + 3 ≠ 2 ∧ (1 : Nat) ≠ 0 := by decide

/-- C9 counterexample: scanning the input `"/*"` leaves the scanner position
at 3, which exceeds the text length 2. -/
theorem C9_counterexample :
    (scanNext [0x2F, 0x2A] initScanner).pos = 3 ∧
    ¬ (scanNext [0x2F, 0x2A] initScanner).pos ≤ List.length [0x2F, 0x2A] := by decide

/-- C7 counterexample: after scanning the single-space input, the token is
whitespace `Trivia` and `getTokenValue()` is the space itself, not the empty
string claimed for trivia tokens. -/
theorem C7_counterexample :
    (scanNext [0x20] initScanner).token = .trivia ∧
    (scanNext [0x20] initScanner).value ≠ [] := by decide

/-- C2, evaluated at the failing input: formatting `"1 /*"` (an unterminated
block comment at the end of text) with `insertFinalNewline` produces the
single edit `{offset 5, length -1, content "\n"}`, whose offset exceeds the
text length 4 and whose length is negative — not sorted-in-bounds
non-overlapping edits. -/
theorem C2_bug_eval :
    formatNew [0x31, 0x20, 0x2F, 0x2A] none { insertFinalNewline := some true } =
      [{ offset := 5, length := -1, content := [0x0A] }] ∧
    (5 : Nat) > List.length [0x31, 0x20, 0x2F, 0x2A] ∧ (-1 : Int) < 0 := by decide

/-- C3, evaluated at the failing input: with `insertFinalNewline` set, one
round of `format`+`apply` turns `"1 /*"` into `"1 /*\n"`, and a second round
appends another newline (the unterminated block comment swallows the final
newline on the rescan), so `apply(format(apply(format(text))))` differs from
`apply(format(text))`. -/
theorem C3_bug_eval :
    applyEdits
        (applyEdits [0x31, 0x20, 0x2F, 0x2A]
          (formatNew [0x31, 0x20, 0x2F, 0x2A] none { insertFinalNewline := some true }))
        (formatNew
          (applyEdits [0x31, 0x20, 0x2F, 0x2A]
            (formatNew [0x31, 0x20, 0x2F, 0x2A] none { insertFinalNewline := some true }))
          none { insertFinalNewline := some true }) ≠
      applyEdits [0x31, 0x20, 0x2F, 0x2A]
        (formatNew [0x31, 0x20, 0x2F, 0x2A] none { insertFinalNewline := some true }) := by
  decide

/-- C8: (1) whenever the formatter's token scan returns an `Unknown` token or
a token with a scan error, the `hasError` flag it returns is set; (2) when
`hasError` is set, `addEdit` appends nothing; (3) consequently the document
`"a 1 b 1 3 true"`, consisting only of `Unknown` tokens and literals, yields
an empty edit list. -/
theorem C8_error_suppression :
    (∀ t kl s, ((fmtScanNew t kl s).1.token = SyntaxKind.unknown ∨
        (fmtScanNew t kl s).1.scanError ≠ ScanError.none) →
      (fmtScanNew t kl s).2.2 = true) ∧
    (∀ ctx edits text s e, addEdit ctx true edits text s e = edits) ∧
    formatNew [0x61, 0x20, 0x31, 0x20, 0x62, 0x20, 0x31, 0x20, 0x33, 0x20, 0x74, 0x72, 0x75, 0x65]
      none {} = [] := by
  refine ⟨?_, ?_, by decide⟩
  · intro t kl s h
    exact decide_eq_true h
  · intro ctx edits text s e
    simp [addEdit]

/-- C8 witness: the suppression facts applied at concrete inputs: scanning the
`Unknown` token `"*"` sets the error flag, and `addEdit` with the flag set
leaves a concrete edit list unchanged. -/
theorem C8_error_suppression_witness :
    (fmtScanNew [0x2A] false initScanner).2.2 = true ∧
    addEdit (mkFmtCtx [0x2A] none {}) true [] [0x20] 0 1 = [] :=
  ⟨C8_error_suppression.1 [0x2A] false initScanner (by decide),
   C8_error_suppression.2.1 (mkFmtCtx [0x2A] none {}) [] [0x20] 0 1⟩

end Jsonc
